import Mathlib

/-!
Formal model of the template formatter of the aio-stream repository
(class BaseFormatter and its helpers in packages/core/src/utils/resources.ts,
final document of that file).  Strings are modelled as lists of characters
(Unicode code points; JavaScript strings are UTF-16 code-unit sequences, which
agrees with this model on all characters appearing in the vocabulary and in the
inputs studied here).  JavaScript numbers are modelled as exact rationals;
`Number(string)` coercion is modelled for decimal literals (the hexadecimal,
octal, binary and Infinity forms accepted by JavaScript are not modelled, and
none of the statements below depend on them).  `Math.random()` is modelled as
an explicit rational parameter `g` threaded through evaluation, together with a
boolean flag recording whether the `random` array modifier was ever invoked.
JavaScript arrays are modelled as references into an explicit store
(`Store := List (List String)`) so that statements about (non-)mutation of the
input record are expressible: array modifiers that copy (`[...value]`)
allocate fresh cells.
-/

namespace AioFmt

abbrev Str := List Char

/-- The left brace character (written via its code point). -/
def lb : Char := Char.ofNat 123

/-- The right brace character (written via its code point). -/
def rb : Char := Char.ofNat 125

/-- Single quote character. -/
def sq : Char := Char.ofNat 39

/-- Double quote character. -/
def dq : Char := Char.ofNat 34

/-- JavaScript whitespace (the class `\s`): space, tab, LF, VT, FF, CR, NBSP,
Ogham space mark, the U+2000..U+200A range, LS, PS, NNBSP, MMSP, ideographic
space and the BOM. -/
def jsWs (c : Char) : Bool :=
  c = ' ' || c = '\t' || c = '\n' || c.toNat = 11 || c.toNat = 12 ||
  c.toNat = 13 || c.toNat = 0xa0 || c.toNat = 0x1680 ||
  (0x2000 ≤ c.toNat && c.toNat ≤ 0x200a) || c.toNat = 0x2028 ||
  c.toNat = 0x2029 || c.toNat = 0x202f || c.toNat = 0x205f ||
  c.toNat = 0x3000 || c.toNat = 0xfeff

/-- The JavaScript regex `.` (any character except line terminators). -/
def jsDotChar (c : Char) : Bool :=
  !(c = '\n' || c.toNat = 13 || c.toNat = 0x2028 || c.toNat = 0x2029)

/-- ASCII lower-casing of one character (model of `String.prototype.toLowerCase`
restricted to ASCII; every vocabulary string is ASCII). -/
def lowerC (c : Char) : Char :=
  if 'A' ≤ c && c ≤ 'Z' then Char.ofNat (c.toNat + 32) else c

/-- ASCII upper-casing of one character. -/
def upperC (c : Char) : Char :=
  if 'a' ≤ c && c ≤ 'z' then Char.ofNat (c.toNat - 32) else c

def lowerS (s : Str) : Str := s.map lowerC

def upperS (s : Str) : Str := s.map upperC

/-- Remove every `\s` character (the `replace(/\s+/g, '')` operation). -/
def removeWs (s : Str) : Str := s.filter (fun c => !jsWs c)

/-- `String.prototype.trim`. -/
def jsTrim (s : Str) : Str :=
  ((s.dropWhile jsWs).reverse.dropWhile jsWs).reverse

/-- `a.startsWith b` on character lists. -/
def startsW (s p : Str) : Bool := p.isPrefixOf s

/-- `a.endsWith b` on character lists. -/
def endsW (s p : Str) : Bool := p.reverse.isPrefixOf s.reverse

/-- `a.includes b` on character lists. -/
def jsIncludes : Str → Str → Bool
  | _, [] => true
  | [], _ => false
  | c :: rest, p => if p.isPrefixOf (c :: rest) then true else jsIncludes rest p

/-- First index at which `p` occurs in `s` (model of `String.prototype.indexOf`
returning `none` for `-1`). -/
def jsIndexOf (s p : Str) : Option Nat :=
  go s 0
where
  go : Str → Nat → Option Nat
    | [], i => if p.isPrefixOf [] then some i else none
    | c :: rest, i =>
      if p.isPrefixOf (c :: rest) then some i else go rest (i + 1)

/-- Last index at which `p` occurs in `s` (model of `lastIndexOf`). -/
def jsLastIndexOf (s p : Str) : Option Nat :=
  go s 0 none
where
  go : Str → Nat → Option Nat → Option Nat
    | [], i, best => if p.isPrefixOf [] then some i else best
    | c :: rest, i, best =>
      go rest (i + 1) (if p.isPrefixOf (c :: rest) then some i else best)

/-- `str.slice(a, b)` for nonnegative indices. -/
def jsSlice (s : Str) (a b : Nat) : Str := (s.take b).drop a

/-- `'_'.repeat n` style repetition. -/
def repeatC (c : Char) (n : Nat) : Str := List.replicate n c

/-- Replace every occurrence of the literal `pat` by `rep`, left to right,
non-overlapping (model of `replaceAll` / a `g`-flagged literal regex). -/
def jsReplaceAll (pat rep : Str) (s : Str) : Str :=
  go (s.length + 1) s
where
  go : Nat → Str → Str
    | 0, t => t
    | _ + 1, [] => []
    | fuel + 1, c :: rest =>
      if pat ≠ [] && pat.isPrefixOf (c :: rest) then
        rep ++ go fuel (rest.drop (pat.length - 1))
      else
        c :: go fuel rest

/-- The `stringValue.replace(/,\s/g, '')` operation of `applySingleModifier`:
each comma-followed-by-whitespace pair is removed, left to right. -/
def stripCommaWs : Str → Str
  | [] => []
  | [c] => [c]
  | c :: d :: rest =>
    if c = ',' && jsWs d then stripCommaWs rest
    else c :: stripCommaWs (d :: rest)

/-- Split on a single character (model of `split('\n')` and friends). -/
def splitOnChar (c : Char) (s : Str) : List Str :=
  go s []
where
  go : Str → Str → List Str
    | [], acc => [acc.reverse]
    | d :: rest, acc =>
      if d = c then acc.reverse :: go rest []
      else go rest (d :: acc)

/-- Decimal digits of a natural number. -/
def natDigits (n : Nat) : Str :=
  if n = 0 then ['0'] else go n n []
where
  go : Nat → Nat → Str → Str
    | _, 0, acc => acc
    | 0, _ + 1, acc => acc
    | fuel + 1, n + 1, acc =>
      go fuel ((n + 1) / 10) (Char.ofNat ((n + 1) % 10 + 48) :: acc)

def intDigits (i : Int) : Str :=
  if i < 0 then '-' :: natDigits i.natAbs else natDigits i.natAbs

/-! ## Exact rationals

JavaScript numbers are IEEE doubles; the values handled in this development
are exact rationals, modelled with an explicit numerator/denominator pair.
(Mathlib's `Rat` arithmetic does not reduce inside the kernel, so this
transparent representation is used instead; every operation below keeps the
denominator positive, and equality and order compare cross products.) -/

structure JQ : Type where
  num : Int
  den : Nat
deriving DecidableEq, Repr

def JQ.ofInt (i : Int) : JQ := ⟨i, 1⟩

def JQ.ofNat (n : Nat) : JQ := ⟨(n : Int), 1⟩

def JQ.add (a b : JQ) : JQ := ⟨a.num * (b.den : Int) + b.num * (a.den : Int), a.den * b.den⟩

def JQ.mul (a b : JQ) : JQ := ⟨a.num * b.num, a.den * b.den⟩

def JQ.neg (a : JQ) : JQ := ⟨-a.num, a.den⟩

def JQ.sub (a b : JQ) : JQ := a.add b.neg

/-- Reciprocal; only applied to nonzero values in this development. -/
def JQ.inv (a : JQ) : JQ :=
  if a.num < 0 then ⟨-(a.den : Int), a.num.natAbs⟩ else ⟨(a.den : Int), a.num.natAbs⟩

def JQ.div (a b : JQ) : JQ := a.mul b.inv

def JQ.pow (a : JQ) : Nat → JQ
  | 0 => ⟨1, 1⟩
  | n + 1 => a.mul (a.pow n)

/-- Value equality (`==` on numbers). -/
def JQ.beq (a b : JQ) : Bool := a.num * (b.den : Int) = b.num * (a.den : Int)

def JQ.blt (a b : JQ) : Bool := a.num * (b.den : Int) < b.num * (a.den : Int)

def JQ.ble (a b : JQ) : Bool := a.num * (b.den : Int) ≤ b.num * (a.den : Int)

def JQ.floor (a : JQ) : Int := Int.fdiv a.num (a.den : Int)

def isDigit (c : Char) : Bool := '0' ≤ c && c ≤ '9'

def digitVal (c : Char) : Nat := c.toNat - 48

def digitsToNat (s : Str) : Nat := s.foldl (fun a c => a * 10 + digitVal c) 0

/-- A JavaScript number as produced by `Number()` on a string: a finite value
or a signed infinity.  `NaN` is `Option.none` at the use sites. -/
inductive JNum : Type where
  | fin : JQ → JNum
  | pinf : JNum
  | ninf : JNum
deriving DecidableEq, Repr

/-- Numeric `==` over non-`NaN` `Number()` results. -/
def JNum.beq : JNum → JNum → Bool
  | .fin a, .fin b => a.beq b
  | .pinf, .pinf => true
  | .ninf, .ninf => true
  | _, _ => false

/-- Numeric `<` over non-`NaN` `Number()` results. -/
def JNum.blt : JNum → JNum → Bool
  | .fin a, .fin b => a.blt b
  | .fin _, .pinf => true
  | .ninf, .fin _ => true
  | .ninf, .pinf => true
  | _, _ => false

/-- Numeric `<=` over non-`NaN` `Number()` results (`!(b < a)`). -/
def JNum.ble (a b : JNum) : Bool := !(JNum.blt b a)

/-- The value of a hexadecimal digit (`0-9`, `a-f`, `A-F`). -/
def hexVal (c : Char) : Option Nat :=
  if '0' ≤ c && c ≤ '9' then some (c.toNat - 48)
  else if 'a' ≤ c && c ≤ 'f' then some (c.toNat - 87)
  else if 'A' ≤ c && c ≤ 'F' then some (c.toNat - 55)
  else none

/-- The digit run of a radix literal (after `0x`/`0o`/`0b`): its value, or
`none` when it is empty or a digit is out of range for the base. -/
def radixDigits (base : Nat) (ds : Str) : Option Nat :=
  if ds = [] then none
  else if ds.all (fun c => (hexVal c).any (fun v => v < base)) then
    some (ds.foldl (fun a c => a * base + (hexVal c).getD 0) 0)
  else none

/-- Model of `Number(string)`: leading/trailing whitespace is trimmed, the
empty string is `0`, the exact-case `Infinity`/`+Infinity`/`-Infinity` forms
give the signed infinities, an unsigned `0x`/`0X`, `0o`/`0O` or `0b`/`0B`
prefix introduces a hexadecimal, octal or binary integer literal, and
otherwise an optional sign is followed by decimal digits with an optional
fractional part and an optional decimal exponent.  Anything else is `NaN`,
modelled as `none`. -/
def jsNumber (s : Str) : Option JNum :=
  let t := jsTrim s
  if t = [] then some (.fin (JQ.ofNat 0))
  else if t = "Infinity".toList ∨ t = "+Infinity".toList then some .pinf
  else if t = "-Infinity".toList then some .ninf
  else
    match t with
    | '0' :: x :: r =>
      if x = 'x' ∨ x = 'X' then (radixDigits 16 r).map (fun n => .fin (JQ.ofNat n))
      else if x = 'o' ∨ x = 'O' then (radixDigits 8 r).map (fun n => .fin (JQ.ofNat n))
      else if x = 'b' ∨ x = 'B' then (radixDigits 2 r).map (fun n => .fin (JQ.ofNat n))
      else decimalPart t
    | _ => decimalPart t
where
  expPart (mant : JQ) (r : Str) : Option JNum :=
    let (esgn, r) : Bool × Str :=
      match r with
      | '-' :: r => (true, r)
      | '+' :: r => (false, r)
      | r => (false, r)
    let ed := r.takeWhile isDigit
    if ed = [] ∨ r.dropWhile isDigit ≠ [] then none
    else
      let e := digitsToNat ed
      some (.fin (if esgn then mant.div (JQ.ofNat (10 ^ e))
        else mant.mul (JQ.ofNat (10 ^ e))))
  decimalPart (t : Str) : Option JNum :=
    let (neg, t) : Bool × Str :=
      match t with
      | '-' :: r => (true, r)
      | '+' :: r => (false, r)
      | r => (false, r)
    let ip := t.takeWhile isDigit
    let t := t.dropWhile isDigit
    let (fp, t) : Str × Str :=
      match t with
      | '.' :: r => (r.takeWhile isDigit, r.dropWhile isDigit)
      | r => ([], r)
    if ip = [] ∧ fp = [] then none
    else
      let mant : JQ := (JQ.ofNat (digitsToNat ip)).add
        ⟨(digitsToNat fp : Int), 10 ^ fp.length⟩
      let mant := if neg then mant.neg else mant
      match t with
      | [] => some (.fin mant)
      | 'e' :: r => expPart mant r
      | 'E' :: r => expPart mant r
      | _ => none

/-- Fractional decimal digits of `q` (0 ≤ q < 1), up to `fuel` digits.  Used to
print terminating decimals; JavaScript prints the shortest representation of
the underlying double, which agrees with this on the integral and short
terminating values handled in this development. -/
def fracDigits : Nat → JQ → Str
  | 0, _ => []
  | fuel + 1, q =>
    if q.beq (JQ.ofNat 0) then []
    else
      let q10 := q.mul (JQ.ofNat 10)
      let d := q10.floor.toNat
      Char.ofNat (d + 48) :: fracDigits fuel (q10.sub (JQ.ofInt q10.floor))

/-- Model of `Number.prototype.toString` (base 10) for nonnegative values. -/
def ratToStrNN (q : JQ) : Str :=
  let ip := q.floor.toNat
  let fr := q.sub (JQ.ofInt q.floor)
  if fr.beq (JQ.ofNat 0) then natDigits ip
  else natDigits ip ++ '.' :: fracDigits 20 fr

/-- Model of `Number.prototype.toString` (base 10). -/
def ratToStr (q : JQ) : Str :=
  if q.blt (JQ.ofNat 0) then '-' :: ratToStrNN q.neg else ratToStrNN q

/-- `Number.prototype.toString(base)` for bases 16, 8, 2 (integer part only;
fractional digits are appended up to 20 places, matching JavaScript on the
integral values that occur here). -/
def natToBase (b : Nat) (n : Nat) : Str :=
  if n = 0 then ['0'] else go n n []
where
  hexDigit (d : Nat) : Char :=
    if d < 10 then Char.ofNat (d + 48) else Char.ofNat (d - 10 + 97)
  go : Nat → Nat → Str → Str
    | _, 0, acc => acc
    | 0, _ + 1, acc => acc
    | fuel + 1, n + 1, acc =>
      go fuel ((n + 1) / b) (hexDigit ((n + 1) % b) :: acc)

def ratToBase (b : Nat) (q : JQ) : Str :=
  if q.blt (JQ.ofNat 0) then '-' :: natToBase b q.neg.floor.toNat
  else natToBase b q.floor.toNat

/-- Model of `Number.prototype.toLocaleString()` under the en-US default
locale: thousands separators every three digits (integral values; fractional
values are not exercised by any statement here and get the same grouping on
their integer part with up to 3 rounded fraction digits). -/
def localeGroups (s : Str) : Str :=
  ((s.reverse.toChunks 3).intersperse [','] |>.flatten).reverse

def jsToLocaleStringNN (q : JQ) : Str :=
  let ip := q.floor.toNat
  let fr3 : JQ := ⟨((q.sub (JQ.ofInt q.floor)).mul (JQ.ofNat 1000)).floor, 1000⟩
  let frD := fracDigits 3 fr3
  localeGroups (natDigits ip) ++ (if frD = [] then [] else '.' :: frD)

def jsToLocaleString (q : JQ) : Str :=
  if q.blt (JQ.ofNat 0) then '-' :: jsToLocaleStringNN q.neg else jsToLocaleStringNN q

/-! ## A small backtracking regular-expression engine

`buildRegexExpression` and its helper patterns in the source construct
JavaScript regular expressions from the modifier/comparator vocabularies and
the namespace shape.  The `RE` type and the continuation-passing matcher below
model exactly the constructs those patterns use: literals (under an optional
case-insensitive flag), character classes, concatenation, ordered alternation,
greedy and lazy repetition and greedy option, with full backtracking.  The
matcher is fuelled; every concrete match in this development succeeds well
within the provided fuel, and universal statements only ever use the composite
matching functions as given. -/

inductive RE : Type where
  | eps : RE
  | lit : Char → RE
  | cls : (Char → Bool) → RE
  | seq : RE → RE → RE
  | alt : RE → RE → RE
  | star : RE → RE
  | starL : RE → RE
  | opt : RE → RE

def ciEq (ci : Bool) (a b : Char) : Bool :=
  if ci then lowerC a = lowerC b else a = b

/-- Backtracking matcher: `reMatch ci fuel r s k` tries to match a prefix of
`s` against `r` and calls the continuation `k` on the remaining suffix;
alternatives are tried left to right, `star` is greedy, `starL` lazy, `opt`
greedy, exactly as in JavaScript (repetition bodies in all patterns used here
consume at least one character, so the progress requirement in the repetition
cases is never restrictive). -/
def reMatch (ci : Bool) : Nat → RE → Str → (Str → Option Nat) → Option Nat
  | 0, _, _, _ => none
  | _ + 1, .eps, s, k => k s
  | _ + 1, .lit c, s, k =>
    match s with
    | [] => none
    | c' :: rest => if ciEq ci c c' then k rest else none
  | _ + 1, .cls p, s, k =>
    match s with
    | [] => none
    | c' :: rest => if p c' then k rest else none
  | fuel + 1, .seq a b, s, k =>
    reMatch ci fuel a s (fun s' => reMatch ci fuel b s' k)
  | fuel + 1, .alt a b, s, k =>
    match reMatch ci fuel a s k with
    | some r => some r
    | none => reMatch ci fuel b s k
  | fuel + 1, .opt r, s, k =>
    match reMatch ci fuel r s k with
    | some res => some res
    | none => k s
  | fuel + 1, .star r, s, k =>
    match reMatch ci fuel r s (fun s' =>
        if s'.length < s.length then reMatch ci fuel (.star r) s' k
        else none) with
    | some res => some res
    | none => k s
  | fuel + 1, .starL r, s, k =>
    match k s with
    | some res => some res
    | none =>
      reMatch ci fuel r s (fun s' =>
        if s'.length < s.length then reMatch ci fuel (.starL r) s' k
        else none)

def reStr (s : String) : RE :=
  (s.toList.map RE.lit).foldr RE.seq RE.eps

def reStrL (s : Str) : RE :=
  (s.map RE.lit).foldr RE.seq RE.eps

def reSeqs (rs : List RE) : RE := rs.foldr RE.seq RE.eps

/-- Ordered alternation of a list; the empty list models the regex `()`
produced by `join('|')` on an empty vocabulary, which matches the empty
string. -/
def reAlts : List RE → RE
  | [] => RE.eps
  | [r] => r
  | r :: rest => RE.alt r (reAlts rest)

/-- The lazy `.+?`. -/
def rePlusLazyDot : RE := RE.seq (RE.cls jsDotChar) (RE.starL (RE.cls jsDotChar))

/-- The lazy `.*?`. -/
def reStarLazyDot : RE := RE.starL (RE.cls jsDotChar)

/-- The greedy `.*`. -/
def reStarDot : RE := RE.star (RE.cls jsDotChar)

/-- The lazy `\s*?`. -/
def reStarLazyWs : RE := RE.starL (RE.cls jsWs)

/-- Fuel bound used for all matches. -/
def reFuel : Nat := 2000000

/-- Whole-string anchored test (`^pattern$` together with `.match`). -/
def reMatchesFull (ci : Bool) (r : RE) (s : Str) : Bool :=
  (reMatch ci reFuel r s (fun rem => if rem = [] then some rem.length else none)).isSome

/-- Earliest-position match: returns `(index, length)` of the leftmost match,
trying successive start positions as a JavaScript regex engine does. -/
def reFirstMatch (ci : Bool) (r : RE) (s : Str) : Option (Nat × Nat) :=
  go s 0
where
  tryAt (t : Str) (i : Nat) : Option (Nat × Nat) :=
    match reMatch ci reFuel r t (fun rem => some rem.length) with
    | some remLen => some (i, t.length - remLen)
    | none => none
  go : Str → Nat → Option (Nat × Nat)
    | [], i => tryAt [] i
    | c :: rest, i =>
      match tryAt (c :: rest) i with
      | some m => some m
      | none => go rest (i + 1)

/-- All successive non-overlapping leftmost matches (model of `matchAll` /
split scanning); every pattern used with it matches at least two characters,
so the scan always progresses. -/
def reAllMatches (ci : Bool) (r : RE) (s : Str) : List (Nat × Nat) :=
  go s 0 (s.length + 1)
where
  go : Str → Nat → Nat → List (Nat × Nat)
    | _, _, 0 => []
    | t, i, fuel + 1 =>
      match reFirstMatch ci r t with
      | none => []
      | some (j, len) =>
        (i + j, len) ::
          go (t.drop (j + max len 1)) (i + j + max len 1) fuel

/-- `String.prototype.split` on a regex consisting of one capture group around
the whole pattern: pieces alternate with the matched separators. -/
def reSplitCaptures (ci : Bool) (r : RE) (s : Str) : List Str :=
  let ms := reAllMatches ci r s
  go 0 ms
where
  go : Nat → List (Nat × Nat) → List Str
    | pos, [] => [s.drop pos]
    | pos, (i, len) :: rest =>
      jsSlice s pos i :: jsSlice s i (i + len) :: go (i + len) rest

/-! ## The fixed vocabularies (`ModifierConstants`, `ComparatorConstants`)

`ModifierConstants.modifiers` is the spread
`{...hardcodedModifiersForRegexMatching, ...stringModifiers, ...numberModifiers,
...arrayModifiers, ...conditionalModifiers.exact, ...conditionalModifiers.prefix}`;
object spread keeps the first insertion position of duplicated keys, so the
alternation order below lists the hardcoded wildcard patterns, then
`upper, lower, title, length, reverse, base64, string`, then
`comma, hex, octal, binary, bytes, bytes10, bytes2, time` (`string` deduplicated),
then `join, first, last, random, sort` (`length`/`reverse` deduplicated), then
`istrue, isfalse, exists`, then the bare comparison key characters.
`buildModifierRegexPattern` escapes the metacharacters of each key, so e.g. the
key `$.+?` denotes a literal `$` followed by the lazy `.+?`. -/

def reReplaceKey (q1 q2 : Char) : RE :=
  reSeqs [reStr "replace(", .lit q1, reStarLazyDot, .lit q1, reStarLazyWs,
    .lit ',', reStarLazyWs, .lit q2, reStarLazyDot, .lit q2, .lit ')']

def reJoinKey (q : Char) : RE :=
  reSeqs [reStr "join(", .lit q, reStarLazyDot, .lit q, .lit ')']

def reWildcardKey (pfx : String) : RE := RE.seq (reStr pfx) rePlusLazyDot

def modifierAlternatives : List RE :=
  [reReplaceKey sq sq, reReplaceKey dq sq, reReplaceKey sq dq, reReplaceKey dq dq,
   reJoinKey sq, reJoinKey dq,
   reWildcardKey "$", reWildcardKey "^", reWildcardKey "~", reWildcardKey "=",
   reWildcardKey ">=", reWildcardKey ">", reWildcardKey "<=", reWildcardKey "<",
   reStr "upper", reStr "lower", reStr "title", reStr "length", reStr "reverse",
   reStr "base64", reStr "string",
   reStr "comma", reStr "hex", reStr "octal", reStr "binary", reStr "bytes",
   reStr "bytes10", reStr "bytes2", reStr "time",
   reStr "join", reStr "first", reStr "last", reStr "random", reStr "sort",
   reStr "istrue", reStr "isfalse", reStr "exists",
   reStr "$", reStr "^", reStr "~", reStr "=", reStr ">=", reStr ">", reStr "<=", reStr "<"]

/-- `buildModifierRegexPattern`: `::(?:alt|alt|...)`. -/
def modifierRE : RE := RE.seq (reStr "::") (reAlts modifierAlternatives)

def comparatorKeys : List String := ["and", "or", "xor", "neq", "equal", "left", "right"]

/-- `buildComparatorRegexPattern`: `::(?:and|or|xor|neq|equal|left|right)::`. -/
def comparatorRE : RE :=
  reSeqs [reStr "::", reAlts (comparatorKeys.map reStr), reStr "::"]

/-- `buildTZLocaleRegexPattern`. -/
def tzRE : RE :=
  RE.seq (reStr "::")
    (reAlts (["UTC", "GMT", "EST", "PST", "en-US", "en-GB", "Europe/London",
      "America/New_York"].map reStr))

/-- `buildCheckRegexPattern`: the pattern string is
`\[(?<mod_check>"(?<mod_check_true>.*)"||"(?<mod_check_false>.*)")\]` — the
`checkTFSplit` constant `'"||"'` is spliced in without escaping, so its two
pipes are regex alternation: the group matches a quoted greedy-dot span, the
empty string, or a second quoted greedy-dot span (so `[]`, `["x"]` and any
single-branch `["…"]` suffix are also accepted). -/
def checkRE : RE :=
  reSeqs [.lit '[',
    reAlts [reSeqs [.lit dq, reStarDot, .lit dq], RE.eps,
      reSeqs [.lit dq, reStarDot, .lit dq]],
    .lit ']']

/-! ## The namespace shape and the grammar builder -/

/-- A namespace shape: the section names with their field names, in object-key
order (`hardcodedParseValueKeysForRegexMatching`). -/
abbrev Shape := List (String × List String)

def lowerStr (s : String) : String := String.mk (lowerS s.toList)

/-- The duplicate check performed by the two `forEach` loops of
`buildVariableRegexPattern`: walk the keys, lower-casing each into a set,
throwing `Must Remove Case-Insensitive Duplicate: '<pre><key>' in ParseValue`
on the first repeat; returns the set in insertion order. -/
def checkDupsCI (pre : String) (names : List String) : Except String (List String) :=
  go names []
where
  go : List String → List String → Except String (List String)
    | [], acc => .ok acc.reverse
    | n :: rest, acc =>
      let ln := lowerStr n
      if acc.contains ln then
        .error ("Must Remove Case-Insensitive Duplicate: " ++ String.mk [sq] ++
          pre ++ n ++ String.mk [sq] ++ " in ParseValue")
      else go rest (ln :: acc)

/-- `buildVariableRegexPattern`: after the section-level duplicate check, each
lower-cased section key is looked up again in the shape (an exact-case property
access in the source, hence the lookup by the lowered spelling) and contributes
`section\.(field|...)` built from its duplicate-checked, lower-cased field
names; a section key that is not reachable under its lowered spelling is
skipped by the `flatMap`. -/
def sectionBranch (shape : Shape) (secKey : String) : Except String (List RE) :=
  match shape.lookup secKey with
  | none => pure []
  | some fields =>
    (checkDupsCI (secKey ++ ".") fields).map
      (fun fl => [reSeqs [reStr secKey, .lit '.', reAlts (fl.map reStr)]])

def buildVariableRegexPattern (shape : Shape) : Except String RE :=
  (checkDupsCI "" (shape.map (·.1))).bind (fun secs =>
    (secs.mapM (sectionBranch shape)).map (fun branches => reAlts branches.flatten))

/-- `buildRegexExpression`:
`^\{ V(::M)* (::C::V(::M)*)* (tz)?(check)? \}$` with the `i` flag (the flag is
applied when the resulting regex is matched). -/
def buildRegexExpression (shape : Shape) : Except String RE :=
  (buildVariableRegexPattern shape).map fun v =>
    let vam := RE.seq v (RE.star modifierRE)
    reSeqs [.lit lb, vam, RE.star (reSeqs [comparatorRE, vam]),
      .opt tzRE, .opt checkRE, .lit rb]

def isOkE {α : Type} : Except String α → Bool
  | .ok _ => true
  | .error _ => false

/-- The namespace shape produced by `convertStreamToParseValue` on an empty
stream (the shape the regex builder is constructed with), keys in object
insertion order. -/
def stdShape : Shape :=
  [("config", ["addonName"]),
   ("stream",
    ["filename", "folderName", "size", "folderSize", "library", "quality",
     "resolution", "languages", "uLanguages", "languageEmojis",
     "uLanguageEmojis", "languageCodes", "uLanguageCodes",
     "smallLanguageCodes", "uSmallLanguageCodes", "wedontknowwhatakilometeris",
     "uWedontknowwhatakilometeris", "visualTags", "audioTags", "releaseGroup",
     "regexMatched", "encode", "audioChannels", "indexer", "seeders", "year",
     "type", "title", "season", "seasons", "episode", "seasonEpisode",
     "duration", "infoHash", "age", "message", "proxied"]),
   ("addon", ["name", "presetId", "manifestUrl"]),
   ("service", ["id", "shortName", "name", "cached"]),
   ("tools", ["removeline", "newline"]),
   ("debug", ["modifier", "comparator", "json", "jsonf"])]

/-- The grammar regex of the standard shape (its construction succeeds, see
`stdShape_grammar_ok`). -/
def stdRE : RE :=
  match buildRegexExpression stdShape with
  | .ok r => r
  | .error _ => RE.eps

/-! ## JavaScript values, the array store, and shared coercions -/

/-- A JavaScript value as it flows through the formatter: a string, a number,
a boolean, an array of strings (a reference into the store), or `null`.
`undefined` is represented by `Option.none` at the use sites. -/
inductive JSVal : Type where
  | vStr : Str → JSVal
  | vNum : JQ → JSVal
  | vBool : Bool → JSVal
  | vArr : Nat → JSVal
  | vNull : JSVal
deriving DecidableEq, Repr

/-- The array heap: cell `r` holds the elements of the array referenced by
`JSVal.vArr r`. -/
abbrev Store := List (List Str)

def storeArr (st : Store) (r : Nat) : List Str := (st[r]?).getD []

/-- A namespace instance: for each section, its field values. -/
abbrev ParseValue := List (String × List (String × JSVal))

/-- `value.toString()` (only ever applied to non-null values in the source;
the `null` case is included for totality). -/
def jsToStringV (st : Store) : JSVal → Str
  | .vStr s => s
  | .vNum q => ratToStr q
  | .vBool b => if b then "true".toList else "false".toList
  | .vArr r => ((storeArr st r).intersperse [',']).flatten
  | .vNull => "null".toList

/-- Template-literal interpolation of a possibly-undefined value. -/
def jsInterp (st : Store) : Option JSVal → Str
  | none => "undefined".toList
  | some .vNull => "null".toList
  | some v => jsToStringV st v

/-- JavaScript truthiness (`ToBoolean`). -/
def jsTruthy : Option JSVal → Bool
  | none => false
  | some .vNull => false
  | some (.vBool b) => b
  | some (.vNum q) => !q.beq (JQ.ofNat 0)
  | some (.vStr s) => s ≠ []
  | some (.vArr _) => true

/-- Strict equality `===`: value equality on primitives (numbers compared by
value), reference equality on arrays (distinct allocations are distinct
references). -/
def strictEq (a b : Option JSVal) : Bool :=
  match a, b with
  | some (.vNum x), some (.vNum y) => x.beq y
  | _, _ => a = b

def sL (s : String) : Str := s.toList

/-! ## Comparator functions (`ComparatorConstants.comparatorKeyToFuncs`)

Each function mirrors the JavaScript operator semantics on arbitrary already
resolved values: `&&`/`||` return one of their operands driven by truthiness,
`xor` is `(v1 || v2) && !(v1 && v2)`, `neq`/`equal` are `!==`/`===`.  None of
these operations can throw in JavaScript, which the totality of the functions
below reflects. -/

def compAnd (a b : Option JSVal) : Option JSVal := if jsTruthy a then b else a

def compOr (a b : Option JSVal) : Option JSVal := if jsTruthy a then a else b

def compXor (a b : Option JSVal) : Option JSVal :=
  let or12 := compOr a b
  if jsTruthy or12 then some (.vBool (!jsTruthy (compAnd a b))) else or12

def compNeq (a b : Option JSVal) : Option JSVal := some (.vBool (!strictEq a b))

def compEqual (a b : Option JSVal) : Option JSVal := some (.vBool (strictEq a b))

def compLeft (a _b : Option JSVal) : Option JSVal := a

def compRight (_a b : Option JSVal) : Option JSVal := b

/-- Exact-case key lookup into `comparatorKeyToFuncs`; the keys are the
lowercase spellings only, so a key captured in another case yields `none`
(reading an absent property), and calling it throws. -/
def comparatorKeyToFuncs (k : Str) : Option (Option JSVal → Option JSVal → Option JSVal) :=
  if k = sL "and" then some compAnd
  else if k = sL "or" then some compOr
  else if k = sL "xor" then some compXor
  else if k = sL "neq" then some compNeq
  else if k = sL "equal" then some compEqual
  else if k = sL "left" then some compLeft
  else if k = sL "right" then some compRight
  else none

/-! ## Modifier tables -/

/-- `title`: split on spaces, lower-case each word, capitalize its first
character, join with spaces. -/
def titleWord (w : Str) : Str :=
  match lowerS w with
  | [] => []
  | c :: r => upperC c :: r

def titleCase (v : Str) : Str :=
  (((splitOnChar ' ' v).map titleWord).intersperse (sL " ")).flatten

def b64alphabet : Str :=
  sL "ABCDEFGHIJKLMNOPQRSTUVWXYZabcdefghijklmnopqrstuvwxyz0123456789+/"

def b64c (n : Nat) : Char := (b64alphabet[n % 64]?).getD 'A'

/-- Model of `btoa`: standard base64 over the character codes.  (`btoa` throws
on code points above 255; the model totalizes by reducing the code modulo 256.
No statement below exercises that case.) -/
def jsBtoa (s : Str) : Str :=
  go (s.map (fun c => c.toNat % 256))
where
  go : List Nat → Str
    | [] => []
    | [a] => [b64c (a / 4), b64c (a % 4 * 16), '=', '=']
    | [a, b] => [b64c (a / 4), b64c (a % 4 * 16 + b / 16), b64c (b % 16 * 4), '=']
    | a :: b :: c :: rest =>
      b64c (a / 4) :: b64c (a % 4 * 16 + b / 16) :: b64c (b % 16 * 4 + c / 64) ::
        b64c (c % 64) :: go rest

/-- Modelled from the spec: `formatBytes` (imported from `./utils`, whose
source is not part of this snapshot) renders a byte count human-readably with
the given base (1000 or 1024); the unit thresholds and one-decimal rounding are
pinned here, as the spec requires a pinned table rather than an assumed one. -/
def formatBytes (base : JQ) (q : JQ) : Str :=
  let (u, v) := pick 5 q
  ratToStr ⟨(v.mul (JQ.ofNat 10)).floor, 10⟩ ++ ' ' ::
    (sL ((["B", "KB", "MB", "GB", "TB", "PB"].get? u).getD "PB"))
where
  pick : Nat → JQ → Nat × JQ
    | 0, v => (5, v)
    | fuel + 1, v =>
      if v.blt base then (5 - (fuel + 1), v)
      else
        let (u, w) := pick fuel (v.div base)
        (u, w)

/-- Modelled from the spec: `formatDuration` (imported from `./utils`, source
not in this snapshot) renders a duration human-readably; pinned here as
hours/minutes/seconds of the value taken in milliseconds. -/
def formatDuration (q : JQ) : Str :=
  let n := (q.div (JQ.ofNat 1000)).floor.toNat
  natDigits (n / 3600) ++ sL "h" ++ natDigits (n % 3600 / 60) ++ sL "m" ++
    natDigits (n % 60) ++ sL "s"

/-- `ModifierConstants.stringModifiers`. -/
def stringModifiers (m : Str) (v : Str) : Option Str :=
  if m = sL "upper" then some (upperS v)
  else if m = sL "lower" then some (lowerS v)
  else if m = sL "title" then some (titleCase v)
  else if m = sL "length" then some (natDigits v.length)
  else if m = sL "reverse" then some v.reverse
  else if m = sL "base64" then some (jsBtoa v)
  else if m = sL "string" then some v
  else none

/-- `ModifierConstants.numberModifiers`. -/
def numberModifiers (m : Str) (q : JQ) : Option Str :=
  if m = sL "comma" then some (jsToLocaleString q)
  else if m = sL "hex" then some (ratToBase 16 q)
  else if m = sL "octal" then some (ratToBase 8 q)
  else if m = sL "binary" then some (ratToBase 2 q)
  else if m = sL "bytes" then some (formatBytes (JQ.ofNat 1000) q)
  else if m = sL "bytes10" then some (formatBytes (JQ.ofNat 1000) q)
  else if m = sL "bytes2" then some (formatBytes (JQ.ofNat 1024) q)
  else if m = sL "string" then some (ratToStr q)
  else if m = sL "time" then some (formatDuration q)
  else none

/-- `conditionalModifiers.exact.exists`: false for `undefined`/`null`, for
all-whitespace strings and for empty arrays, true otherwise. -/
def existsV (st : Store) : Option JSVal → Bool
  | none => false
  | some .vNull => false
  | some (.vStr s) => s.any (fun c => !jsWs c)
  | some (.vArr r) => (storeArr st r).length > 0
  | some _ => true

/-- The prefix-conditional keys in object order. -/
def pfxKeys : List Str := [sL "$", sL "^", sL "~", sL "=", sL ">=", sL ">", sL "<=", sL "<"]

/-- The keys sorted by descending length (stable), as the source sorts them to
find the longest matching one. -/
def pfxKeysByLen : List Str := [sL ">=", sL "<=", sL "$", sL "^", sL "~", sL "=", sL ">", sL "<"]

def pfxLongest (m : Str) : Option Str := pfxKeysByLen.find? (fun k => startsW m k)

/-- Strict code-point-wise lexicographic `<` (JavaScript string relational
comparison). -/
def lexLt : Str → Str → Bool
  | [], [] => false
  | [], _ :: _ => true
  | _ :: _, [] => false
  | a :: as, b :: bs =>
    if a.toNat < b.toNat then true
    else if b.toNat < a.toNat then false
    else lexLt as bs

/-- The ordering/equality prefixes eligible for numeric comparison
(`['<', '<=', '>', '>=', '=']` in the source). -/
def numericPfxKeys : List Str := [sL "<", sL "<=", sL ">", sL ">=", sL "="]

def numPfxCompare (p : Str) (a b : JNum) : Bool :=
  if p = sL "=" then a.beq b
  else if p = sL ">=" then b.ble a
  else if p = sL ">" then b.blt a
  else if p = sL "<=" then a.ble b
  else if p = sL "<" then a.blt b
  else false

def strPfxCompare (p : Str) (v c : Str) : Bool :=
  if p = sL "$" then startsW v c
  else if p = sL "^" then endsW v c
  else if p = sL "~" then jsIncludes v c
  else if p = sL "=" then v = c
  else if p = sL ">=" then !lexLt v c
  else if p = sL ">" then lexLt c v
  else if p = sL "<=" then !lexLt c v
  else if p = sL "<" then lexLt v c
  else false

/-- The pre-processing of the prefix-conditional branch: the stringified,
lower-cased operand, and the comparison literal with whitespace removed
exactly when the operand contains none. -/
def pfxStringValue (st : Store) (varV : Option JSVal) : Str :=
  lowerS (jsToStringV st (varV.getD .vNull))

def pfxStringCheck (sv : Str) (m p : Str) : Str :=
  let sc0 := lowerS (m.drop p.length)
  if !(sv.any jsWs) then removeWs sc0 else sc0

/-- The body of the prefix-conditional case of `applySingleModifier` (the
`PREFIX` arm inside the `try`): longest-prefix dispatch, string preprocessing,
the `/,\s/g`-stripped numeric coercion of both sides, and numeric comparison
exactly when the prefix is an ordering/equality one and neither side is `NaN`,
string comparison otherwise.  None of the involved operations can throw for
values that passed the `exists` pre-check, so the surrounding `catch`
(yielding `false`) is not represented. -/
def condPfx (st : Store) (varV : Option JSVal) (m : Str) : Bool :=
  match pfxLongest m with
  | none => false
  | some p =>
    let sv := pfxStringValue st varV
    let sc := pfxStringCheck sv m p
    match jsNumber (stripCommaWs sv), jsNumber (stripCommaWs sc) with
    | some nv, some nc =>
      if p ∈ numericPfxKeys then numPfxCompare p nv nc
      else strPfxCompare p sv sc
    | _, _ => strPfxCompare p sv sc

/-- Stable ascending sort by code-point order (`[...value].sort()`; the order
is total and antisymmetric, so any stable sort produces the JavaScript
result). -/
def insertSorted (x : Str) : List Str → List Str
  | [] => [x]
  | y :: rest => if lexLt y x then y :: insertSorted x rest else x :: y :: rest

def sortStrs (l : List Str) : List Str := l.foldl (fun acc x => insertSorted x acc) []

/-- `arrayModifierGetOrDefault`: `value.length > 0 ? String(value[i]) : ''`;
an out-of-range index reads `undefined`, which `String` renders as
`"undefined"`. -/
def arrGetOrDefault (arr : List Str) (i : Int) : Str :=
  if arr.length = 0 then []
  else if i < 0 then sL "undefined"
  else (arr[i.toNat]?).getD (sL "undefined")

def optLit : Option Char → List RE
  | none => []
  | some c => [RE.lit c]

/-- The split performed by the `replace(...)` hardcoded string modifier:
`content.split(new RegExp(findStartChar + "\\s*,\\s*" + findEndChar))` where
the two characters are `mod.charAt(9)` and `mod.charAt(mod.length - 2)` (an
out-of-range `charAt` yields the empty string and contributes nothing to the
pattern; the source does not escape the inserted characters, and the case of a
regex metacharacter there — on which the `RegExp` constructor would misparse —
is not modelled, nor exercised by any statement below). -/
def replaceArgSplit (m content : Str) : List Str :=
  let re := reSeqs (optLit m[9]? ++
    [RE.star (RE.cls jsWs), RE.lit ',', RE.star (RE.cls jsWs)] ++
    optLit m[m.length - 2]?)
  go 0 (reAllMatches false re content)
where
  go : Nat → List (Nat × Nat) → List Str
    | pos, [] => [content.drop pos]
    | pos, (i, len) :: rest => jsSlice content pos i :: go (i + len) rest

/-- Membership of the lower-cased modifier among the exact conditional keys
(`Object.keys(conditionalModifiers.exact).includes(mod)`). -/
def isExactMod (m : Str) : Bool :=
  m = sL "istrue" || m = sL "isfalse" || m = sL "exists"

/-- Whether the lower-cased modifier starts with one of the prefix conditional
keys. -/
def isPfxMod (m : Str) : Bool := pfxKeys.any (fun k => startsW m k)

/-- The whole conditional-modifier branch of `applySingleModifier`: `false`
when the value fails the `exists` pre-check, else the exact table or the
prefix comparison. -/
def condResult (st : Store) (varV : Option JSVal) (m : Str) : Bool :=
  if !(existsV st varV) then false
  else if isExactMod m then
    if m = sL "istrue" then strictEq varV (some (.vBool true))
    else if m = sL "isfalse" then strictEq varV (some (.vBool false))
    else existsV st varV
  else condPfx st varV m

/-- `[...value]` followed by an in-place `sort`/`reverse` of the copy: a fresh
cell is allocated for the copy and the mutation hits only that fresh cell. -/
def allocMutated (st : Store) (arr res : List Str) : Store :=
  let st1 := st ++ [arr]
  st1.set (st1.length - 1) res

/-- `applySingleModifier`: conditional (exact and prefix) modifiers first —
they return a boolean, defaulting to `false` when the value fails the `exists`
pre-check (and, in the source, on any exception inside the `try`; the modelled
operations are total) — then the string, array and number tables with their
hardcoded parameterized entries, and `undefined` (here `none`) for a modifier
not applicable to the value's runtime type.  `g` models `Math.random()`; the
returned flag records whether the `random` entry ran.  `mod0` is the original-
case modifier (`_mod`), `m` its lower-casing. -/
def applySingleModifier (g : JQ) (st : Store) (varV : Option JSVal) (mod0 : Str) :
    Option JSVal × Store × Bool :=
  let m := lowerS mod0
  if isExactMod m || isPfxMod m then
    (some (.vBool (condResult st varV m)), st, false)
  else
    match varV with
    | some (.vStr v) =>
      (match stringModifiers m v with
      | some res => (some (.vStr res), st, false)
      | none =>
        if startsW m (sL "replace(") && endsW m (sL ")") then
          let content := jsSlice mod0 9 (mod0.length - 2)
          let parts := replaceArgSplit m content
          let key := (parts[0]?).getD []
          let replaceKey := (parts[1]?).getD []
          let shouldBeUndefinedOk :=
            match parts[2]? with
            | none => true
            | some [] => true
            | some _ => false
          if shouldBeUndefinedOk && key ≠ [] && replaceKey ≠ [] then
            (some (.vStr (jsReplaceAll key replaceKey v)), st, false)
          else (none, st, false)
        else (none, st, false))
    | some (.vArr r) =>
      let arr := storeArr st r
      if m = sL "join" then (some (.vStr ((arr.intersperse (sL ", ")).flatten)), st, false)
      else if m = sL "length" then (some (.vStr (natDigits arr.length)), st, false)
      else if m = sL "first" then (some (.vStr (arrGetOrDefault arr 0)), st, false)
      else if m = sL "last" then
        (some (.vStr (arrGetOrDefault arr ((arr.length : Int) - 1))), st, false)
      else if m = sL "random" then
        (some (.vStr (arrGetOrDefault arr ((g.mul (JQ.ofNat arr.length)).floor))), st, true)
      else if m = sL "sort" then
        let sorted := sortStrs arr
        (some (.vStr ((sorted.intersperse (sL ",")).flatten)), allocMutated st arr sorted, false)
      else if m = sL "reverse" then
        let rev := arr.reverse
        (some (.vStr ((rev.intersperse (sL ",")).flatten)), allocMutated st arr rev, false)
      else if startsW m (sL "join(") && endsW m (sL ")") then
        let sep := jsSlice mod0 6 (mod0.length - 2)
        (some (.vStr ((arr.intersperse sep).flatten)), st, false)
      else (none, st, false)
    | some (.vNum q) =>
      (match numberModifiers m q with
      | some res => (some (.vStr res), st, false)
      | none => (none, st, false))
    | _ => (none, st, false)

/-! ## Segment evaluation (`parseModifiedVariable`) -/

/-- The resolved-variable record: `{ result?: any, error?: string }`. -/
structure RVal : Type where
  result : Option JSVal := none
  error : Option Str := none
deriving DecidableEq, Repr

/-- The `find` helper of `parseModifiedVariable`: the first key whose
lower-casing equals the (already lower-cased) probe. -/
def findKeyCI (keys : List String) (probe : Str) : Option String :=
  keys.find? (fun k => probe = lowerS k.toList)

/-- Match one `(::(?:modifier))(?=::|$)` at the head of `t`; returns the match
length.  The pattern is built with the `g` flag only, so matching is
case-sensitive. -/
def modMatchOneAt (t : Str) : Option Nat :=
  (reMatch false reFuel modifierRE t
    (fun rem => if rem = [] || startsW rem (sL "::") then some rem.length else none)).map
    (fun remLen => t.length - remLen)

/-- All matches of the single-modifier pattern over the modifier tail
(`matchAll`, already in index order), each stripped of its `::` prefix. -/
def modMatchAll (s : Str) : List Str :=
  go s (s.length + 1)
where
  go : Str → Nat → List Str
    | _, 0 => []
    | t, fuel + 1 =>
      match modMatchOneAt t with
      | some len => (t.take len).drop 2 :: go (t.drop (max len 1)) fuel
      | none =>
        match t with
        | [] => []
        | _ :: rest => go rest fuel

/-- `parseValue[variableType][propertyName]` (exact-case property reads on the
namespace instance; an absent property reads as `undefined`). -/
def lookupPV (pv : ParseValue) (vt prop : String) : Option JSVal :=
  (pv.lookup vt).bind (fun fields => fields.lookup prop)

/-- The error tag chosen by the `switch (typeof property)` when a modifier
application returns `undefined`; note `typeof null` is `"object"`, so a null
property selects the array tag. -/
def typeofErrTag (property : Option JSVal) (modName : Str) : Str :=
  match property with
  | some (.vStr _) => sL "\x7bunknown_string_modifier(" ++ modName ++ sL ")\x7d"
  | some (.vNum _) => sL "\x7bunknown_number_modifier(" ++ modName ++ sL ")\x7d"
  | some (.vBool _) => sL "\x7bunknown_boolean_modifier(" ++ modName ++ sL ")\x7d"
  | some (.vArr _) => sL "\x7bunknown_array_modifier(" ++ modName ++ sL ")\x7d"
  | some .vNull => sL "\x7bunknown_array_modifier(" ++ modName ++ sL ")\x7d"
  | none => sL "\x7bunknown_modifier(" ++ modName ++ sL ")\x7d"

/-- The modifier-application loop of `parseModifiedVariable`. -/
def foldMods (g : JQ) (property : Option JSVal) :
    List Str → Option JSVal → Store → RVal × Store × Bool
  | [], cur, st => ({result := cur}, st, false)
  | mname :: rest, cur, st =>
    let (r1, st1, u1) := applySingleModifier g st cur mname
    match r1 with
    | none => ({error := some (typeofErrTag property mname)}, st1, u1)
    | some v =>
      let (rv, st2, u2) := foldMods g property rest (some v) st1
      (rv, st2, u1 || u2)

/-- `parseModifiedVariable` (the returned resolver, evaluated at a namespace
instance): resolve `variableType.propertyName` against the shape's keys
case-insensitively (the never-taken failure branches interpolate the
`undefined` result of the failed `find`), extract the valid modifier spellings
from the tail, then apply them left to right. -/
def parseModifiedVariable (shape : Shape) (pv : ParseValue) (g : JQ)
    (baseString : Str) (st : Store) : RVal × Store × Bool :=
  let vtProbe := lowerS (baseString.takeWhile (fun c => c ≠ '.'))
  match findKeyCI (shape.map (·.1)) vtProbe with
  | none => ({error := some (sL "\x7bunknown_variableType(undefined)\x7d")}, st, false)
  | some vt =>
    let rest := baseString.drop (vt.length + 1)
    let letters := rest.takeWhile Char.isAlpha
    match findKeyCI ((shape.lookup vt).getD []) (lowerS letters) with
    | none =>
      ({error := some (sL "\x7bunknown_propertyName(" ++ vt.toList ++ sL ".undefined)\x7d")},
        st, false)
    | some prop =>
      let allMods := rest.drop prop.length
      let mods := if allMods.length ≠ 0 then modMatchAll allMods else []
      let property := lookupPV pv vt prop
      foldMods g property mods property st

/-! ## Expression evaluation (`parseVariable`) -/

def altEvens {α : Type} : List α → List α
  | [] => []
  | [x] => [x]
  | x :: _ :: rest => x :: altEvens rest

def altOdds {α : Type} : List α → List α
  | [] => []
  | [_] => []
  | _ :: y :: rest => y :: altOdds rest

/-- `c.slice(2, -2)`: strip the `::` wrappers off a captured comparator. -/
def sliceComparatorKey (sep : Str) : Str := jsSlice sep 2 (sep.length - 2)

/-- Stand-in for the engine-dependent text of the `TypeError` raised when an
absent comparator entry is invoked (`${e}` in the error template). -/
def comparatorThrowMsg : Str := sL "TypeError: comparatorFn is not a function"

abbrev CompFns := List (Option (Option JSVal → Option JSVal → Option JSVal) × Str)

/-- One step of the comparator `reduce`: an errored accumulator or operand is
propagated unchanged; otherwise the comparator at position `i - 1` is invoked —
a missing table entry (a key captured in non-lowercase spelling) throws, which
the surrounding `catch` converts into the `unable_to_compare` tag. -/
def reduceStep (fns : CompFns) (st : Store) (prev cur : RVal) (i : Nat) : RVal :=
  if prev.error.isSome then prev
  else if cur.error.isSome then cur
  else
    match fns[i - 1]? with
    | some (some f, _) => {result := f prev.result cur.result}
    | some (none, key) =>
      {error := some (sL "\x7bunable_to_compare(<" ++ jsInterp st prev.result ++
        sL ">::" ++ key ++ sL "::<" ++ jsInterp st cur.result ++ sL ">, " ++
        comparatorThrowMsg ++ sL ")\x7d")}
    | none => {result := none}

def reduceFold (fns : CompFns) (st : Store) : RVal → List RVal → Nat → RVal
  | prev, [], _ => prev
  | prev, cur :: rest, i => reduceFold fns st (reduceStep fns st prev cur i) rest (i + 1)

def evalSegments (shape : Shape) (pv : ParseValue) (g : JQ) :
    List Str → Store → List RVal × Store × Bool
  | [], st => ([], st, false)
  | s :: rest, st =>
    let (rv, st1, u1) := parseModifiedVariable shape pv g s st
    let (rvs, st2, u2) := evalSegments shape pv g rest st1
    (rv :: rvs, st2, u1 || u2)

/-- The `CannotCoerceBoolean` error tag
(`{cannot_coerce_boolean_for_check_from(<value>)}`). -/
def cannotCoerceTag (st : Store) (o : Option JSVal) : Str :=
  sL "\x7bcannot_coerce_boolean_for_check_from(" ++ jsInterp st o ++ sL ")\x7d"

/-- The CHECK TRUE/FALSE wrapper of `parseVariable`: a reduced result that is
not exactly boolean is replaced by the `cannot_coerce_boolean` tag, else the
matching branch text becomes the result. -/
def applyCheckTF (st : Store) (mc : Option (Str × Str)) (rv : RVal) : RVal :=
  match mc with
  | none => rv
  | some (t, f) =>
    if rv.result = some (.vBool true) then {result := some (.vStr t)}
    else if rv.result = some (.vBool false) then {result := some (.vStr f)}
    else {error := some (cannotCoerceTag st rv.result)}

/-- `parseVariable`, evaluated at a namespace instance: split the (spliced)
expression on `::comparator::` boundaries with the `gi` flag, look the
captured keys up case-sensitively, resolve every segment, reduce pairwise left
to right, and finally apply the conditional branch pair if present. -/
def parseVariable (shape : Shape) (pv : ParseValue) (g : JQ)
    (modifiedVariable : Str) (mc : Option (Str × Str)) (st : Store) :
    RVal × Store × Bool :=
  let parts := reSplitCaptures true comparatorRE modifiedVariable
  let vwm := altEvens parts
  let comparators := (altOdds parts).map sliceComparatorKey
  let fns : CompFns := comparators.map (fun k => (comparatorKeyToFuncs k, k))
  match vwm with
  | [single] =>
    let (rv, st1, u1) := parseModifiedVariable shape pv g single st
    (applyCheckTF st1 mc rv, st1, u1)
  | _ =>
    let (rvs, st1, u1) := evalSegments shape pv g vwm st
    let red :=
      match rvs with
      | [] => ({result := none} : RVal)
      | h :: t => reduceFold fns st1 h t 1
    (applyCheckTF st1 mc red, st1, u1)

/-! ## The template compiler (`compileTemplateHelper`)

The scan walks the template character by character keeping a stack of `{`
indices; on each `}` it tries the stack top-down for the first span whose
whitespace-stripped text matches the anchored grammar, extracts the
conditional branch pair with the dedicated regex
`\[\s*"(.*?)"\s*\|\s*\|\s*"(.*?)"\s*\]\s*\}$` from the unstripped span,
removes whitespace from the variable text (tracking how much was removed
before each index), adopts previously compiled nodes lying inside the span as
nested children (in reverse order), replaces the span by the one-character
placeholder and resumes right after it. -/

def wsCount (u : Str) : Nat := (u.takeWhile jsWs).length

/-- Tail of the check regex after the false branch's closing quote:
`\s*\]\s*\}$`. -/
def chkEnd (rest : Str) : Bool :=
  match rest.drop (wsCount rest) with
  | ']' :: r2 =>
    (match r2.drop (wsCount r2) with
    | [c3] => c3 = rb
    | _ => false)
  | _ => false

/-- The lazy second half of the check regex: `(?<f>.*?)"\s*\]\s*\}$`
(`f` accumulated in reverse; a closing quote whose continuation fails is
consumed as branch text, as the lazy `.*?` backtracks). -/
def chkFLoop : Str → Str → Option Str
  | [], _ => none
  | c :: rest, fAcc =>
    if c = dq && chkEnd rest then some fAcc.reverse
    else if jsDotChar c then chkFLoop rest (c :: fAcc)
    else none

/-- After the first branch text: `\s*\|\s*\|\s*"` then the false branch. -/
def chkAfterT (r : Str) : Option Str :=
  let r1 := r.drop (wsCount r)
  match r1 with
  | '|' :: r2 =>
    let r3 := r2.drop (wsCount r2)
    (match r3 with
    | '|' :: r4 =>
      let r5 := r4.drop (wsCount r4)
      (match r5 with
      | c :: r6 => if c = dq then chkFLoop r6 [] else none
      | [] => none)
    | _ => none)
  | _ => none

/-- The lazy first branch text: `(?<t>.*?)"` followed by `chkAfterT`
(backtracking: a closing quote whose continuation fails is consumed as branch
text, as the lazy `.*?` does). -/
def chkTLoop : Str → Str → Option (Str × Str)
  | [], _ => none
  | c :: rest, tAcc =>
    if c = dq then
      match chkAfterT rest with
      | some f => some (tAcc.reverse, f)
      | none => if jsDotChar c then chkTLoop rest (c :: tAcc) else none
    else if jsDotChar c then chkTLoop rest (c :: tAcc) else none

/-- Try the check regex at one start position: `\[\s*"` then the two lazy
branch texts. -/
def chkParseFrom : Str → Option (Str × Str)
  | '[' :: rest =>
    let r1 := rest.drop (wsCount rest)
    (match r1 with
    | c :: r2 => if c = dq then chkTLoop r2 [] else none
    | [] => none)
  | _ => none

/-- The CHECK TRUE/FALSE extraction: the leftmost start position from which the
(end-anchored) check pattern matches; returns the two branch texts and the
start index of the matched text (which extends to the end of the span). -/
def matchCheckTF (cand : Str) : Option (Str × Str × Nat) :=
  go cand 0
where
  go : Str → Nat → Option (Str × Str × Nat)
    | [], _ => none
    | u@(_ :: rest), i =>
      match chkParseFrom u with
      | some (t, f) => some (t, f, i)
      | none => go rest (i + 1)

/-- The modCheck data captured by a compiled node: branch texts and the two
character offsets (`relativeTrueIndex` and the gap up to the false text)
computed from `indexOf`/`lastIndexOf` on the matched check text. -/
structure MC : Type where
  t : Str
  f : Str
  offsetFromVariable : Nat
  offsetFromTrueCase : Nat
deriving DecidableEq, Repr

/-- A compiled expression node: the whitespace-stripped variable text, the
length of the original (whitespace-carrying) variable text, the optional
conditional pair, the per-index count of removed whitespace, and the adopted
nested children with their placeholder offsets relative to the span's `{`
(already reversed, as the source reverses them when the node is built). -/
inductive CompiledVar : Type where
  | node (gvt : Str) (vtwLen : Nat) (mc : Option MC) (numWs : List Nat)
      (nested : List (Nat × CompiledVar)) : CompiledVar
deriving Repr

/-- The REMOVE WHITESPACE step: split on the (case-sensitive, capturing)
comparator pattern, split each piece on the (case-sensitive, capturing)
modifier pattern, strip all whitespace from the leading piece, trim every
piece, and join everything back. -/
def wsStripVariableTemplate (vtw : Str) : Str :=
  ((reSplitCaptures false comparatorRE vtw).map (fun part =>
    let pieces := reSplitCaptures false modifierRE part
    let pieces :=
      match pieces with
      | [] => []
      | p0 :: rest => removeWs p0 :: rest
    (pieces.map jsTrim).flatten)).flatten

/-- `numWhitespaceRemovedBeforeN`: walking the original text against the
stripped text, the running count of non-matching (removed) characters,
recorded after processing each index. -/
def numWsGo : Str → Str → Nat → List Nat
  | [], _, _ => []
  | c :: rest, gvt, removed =>
    match gvt with
    | gc :: grest =>
      if gc = c then removed :: numWsGo rest grest removed
      else (removed + 1) :: numWsGo rest gvt (removed + 1)
    | [] => (removed + 1) :: numWsGo rest [] (removed + 1)

/-- The `checkSuffix` reconstruction used to compute the span length for
nested-node adoption. -/
def checkSuffixStr : Option MC → Str
  | none => []
  | some m =>
    repeatC '_' m.offsetFromVariable ++ m.t ++ repeatC '_' m.offsetFromTrueCase ++
      m.f ++ [dq, ']']

/-- The inner loop of `getMatches`: try the stack top-down (input and returned
remainder are in reversed order, i.e. most recent first) for a span whose
whitespace-stripped text matches the anchored grammar. -/
def getMatchesRev (re : RE) (str : Str) (i : Nat) : List Nat → Option (List Nat × Nat)
  | [] => none
  | lbIdx :: restRev =>
    let cand := jsSlice str lbIdx (i + 1)
    if reMatchesFull true re (removeWs cand) then some (restRev, lbIdx)
    else
      match getMatchesRev re str i restRev with
      | some (keep, found) => some (lbIdx :: keep, found)
      | none => none

/-- Build the compiled node for a matched span and drop its adopted children
from the top-level list. -/
def buildNode (str : Str) (i lbIdx : Nat) (fns : List (Nat × CompiledVar)) :
    CompiledVar × List (Nat × CompiledVar) :=
  let cand := jsSlice str lbIdx (i + 1)
  let chk := matchCheckTF cand
  let (mcOpt, tailLen) : Option MC × Nat :=
    match chk with
    | none => (none, 1)
    | some (t, f, start) =>
      let mTxt := cand.drop start
      let relTrue := ((jsIndexOf mTxt (dq :: (t ++ [dq]))).getD 0) + 1
      let relFalse := ((jsLastIndexOf mTxt (dq :: (f ++ [dq]))).getD 0) + 1
      (some ⟨t, f, relTrue, relFalse - (relTrue + t.length)⟩, mTxt.length)
  let vtw := jsSlice cand 1 (cand.length - tailLen)
  let gvt := wsStripVariableTemplate vtw
  let nws := numWsGo vtw gvt 0
  let spanLen := 1 + vtw.length + (checkSuffixStr mcOpt).length + 1
  let inSpan := fun (p : Nat × CompiledVar) => lbIdx < p.1 && p.1 < lbIdx + spanLen
  let nested := (fns.filter inSpan).reverse
  let kept := fns.filter (fun p => !(inSpan p))
  let nestedRel := nested.map (fun p => (p.1 - lbIdx, p.2))
  (CompiledVar.node gvt vtw.length mcOpt nws nestedRel, kept)

/-- The character scan of `compileTemplateHelper` (fuel decreases every
iteration; `str.length - i + 1` strictly decreases, so the initial fuel
`length + 1` always suffices). -/
def scanGo (re : RE) : Nat → Str → Nat → List Nat → List (Nat × CompiledVar) →
    Str × List (Nat × CompiledVar)
  | 0, str, _, _, fns => (str, fns)
  | fuel + 1, str, i, stack, fns =>
    if i < str.length then
      let c := (str[i]?).getD ' '
      if c = lb then scanGo re fuel str (i + 1) (stack ++ [i]) fns
      else if c = rb then
        if stack = [] then scanGo re fuel str (i + 1) stack fns
        else
          match getMatchesRev re str i stack.reverse with
          | none => scanGo re fuel str (i + 1) stack fns
          | some (restRev, lbIdx) =>
            let (nodeV, kept) := buildNode str i lbIdx fns
            let str' := str.take lbIdx ++ 'X' :: str.drop (i + 1)
            scanGo re fuel str' (lbIdx + 1) restRev.reverse (kept ++ [(lbIdx, nodeV)])
      else scanGo re fuel str (i + 1) stack fns
    else (str, fns)

/-- `compileTemplateHelper`: the residual template text (placeholders inserted)
and the ordered compiled top-level nodes.  An empty template compiles to the
constant empty function. -/
def compileTemplateHelper (re : RE) (s : Str) : Str × List (Nat × CompiledVar) :=
  if s = [] then ([], [])
  else scanGo re (s.length + 1) s 0 [] []

/-! ## Node evaluation and rendering -/

/-- `x?.toString() ?? ''`: `undefined` and `null` both yield the empty string
(optional chaining on `null` short-circuits to `undefined`). -/
def optToStr (st : Store) : Option JSVal → Str
  | none => []
  | some .vNull => []
  | some v => jsToStringV st v

/-- `str.slice(0, k) + resolved + str.slice(k + 1)`; `none` models the `NaN`
index produced when `numWhitespaceRemovedBeforeN[relativeInsertIndex]` is an
absent key (`undefined`): both `slice` bounds then coerce to `0`, so the
resolved text is prepended and nothing is removed. -/
def spliceAt (s : Str) (idx : Option Nat) (resolved : Str) : Str :=
  match idx with
  | none => resolved ++ s
  | some k => s.take k ++ resolved ++ s.drop (k + 1)

/-- One child's splice into the current variable text and branch pair: into
the false branch, the true branch, or the variable text according to the
child's placeholder offset (span coordinates, counted from the `{`), the last
case adjusting the offset by the recorded amount of removed whitespace
(an out-of-range read there is the `NaN` case of `spliceAt`).  The false/true
offsets are recomputed per child from the current (possibly already spliced)
true-branch text, as the source does. -/
def spliceOne (vtwLen : Nat) (nws : List Nat) (rel : Nat) (resolved : Str)
    (vt : Str) (mc : Option MC) : Str × Option MC :=
  let trueCaseOffset :=
    match mc with
    | some m => 1 + vtwLen + m.offsetFromVariable
    | none => 0
  let falseCaseOffset :=
    match mc with
    | some m => trueCaseOffset + m.t.length + m.offsetFromTrueCase
    | none => 0
  match mc with
  | some m =>
    if falseCaseOffset ≤ rel then
      (vt, some {m with f := spliceAt m.f (some (rel - falseCaseOffset)) resolved})
    else if trueCaseOffset ≤ rel then
      (vt, some {m with t := spliceAt m.t (some (rel - trueCaseOffset)) resolved})
    else
      (spliceAt vt ((nws[rel]?).map (fun w => rel - w)) resolved, some m)
  | none =>
    (spliceAt vt ((nws[rel]?).map (fun w => rel - w)) resolved, none)

/-- `getResolvedVariable`: resolve the nested children (in the stored,
reversed order) into the local copies of the variable text and branch texts,
then parse and evaluate the final text.  The fuel bounds the nesting depth;
it is passed far in excess of any reachable depth (one unit per nesting
level). -/
def nodeStep (ev : CompiledVar → Store → RVal × Store × Bool) (vtwLen : Nat)
    (nws : List Nat) (acc : Str × Option MC × Store × Bool)
    (child : Nat × CompiledVar) : Str × Option MC × Store × Bool :=
  let (vt, mc, stA, u) := acc
  let (crv, st1, u1) := ev child.2 stA
  let resolved := crv.error.getD (optToStr st1 crv.result)
  let next := spliceOne vtwLen nws child.1 resolved vt mc
  (next.1, next.2, st1, u || u1)

def evalNode (shape : Shape) (pv : ParseValue) (g : JQ) :
    Nat → CompiledVar → Store → RVal × Store × Bool
  | 0, _, st => ({result := none}, st, false)
  | fuel + 1, .node gvt vtwLen mcOpt nws nested, st =>
    let (vt, mcCur, st1, u1) :=
      nested.foldl (nodeStep (evalNode shape pv g fuel) vtwLen nws) (gvt, mcOpt, st, false)
    let mcTF := mcCur.map (fun m => (m.t, m.f))
    let (rv, st2, u2) := parseVariable shape pv g vt mcTF st1
    (rv, st2, u1 || u2)

/-- Evaluation fuel used at the top level (far in excess of any reachable
nesting depth, which is bounded by the number of compiled nodes). -/
def evalFuel : Nat := 1000000

/-- The final composed function of `compileTemplateHelper`: substitute each
top-level node's rendering at its recorded position, most recently compiled
first (`[...fns].reverse()`). -/
def renderFns (shape : Shape) (pv : ParseValue) (g : JQ) :
    List (Nat × CompiledVar) → Str → Store → Str × Store × Bool
  | [], resultStr, st => (resultStr, st, false)
  | (idx, nodeV) :: rest, resultStr, st =>
    let (rv, st1, u1) := evalNode shape pv g evalFuel nodeV st
    let replacement := rv.error.getD (optToStr st1 rv.result)
    let resultStr' := resultStr.take idx ++ replacement ++ resultStr.drop (idx + 1)
    let (out, st2, u2) := renderFns shape pv g rest resultStr' st1
    (out, st2, u1 || u2)

def runCompiled (shape : Shape) (pv : ParseValue) (g : JQ)
    (c : Str × List (Nat × CompiledVar)) (st : Store) : Str × Store × Bool :=
  renderFns shape pv g c.2.reverse c.1 st

/-! ## Post-processing (`compileTemplate`'s wrapper) -/

def removeLineTag : Str := sL "\x7btools.removeline\x7d"

/-- Whether `/\{tools.newline\}/` matches at the head (the unescaped `.`
matches any character but a line terminator). -/
def newlineTagAt (s : Str) : Bool :=
  startsW s (sL "\x7btools") &&
  (match s[6]? with
   | some c => jsDotChar c
   | none => false) &&
  startsW (s.drop 7) (sL "newline\x7d")

def replaceNewlineTag (s : Str) : Str :=
  go (s.length + 1) s
where
  go : Nat → Str → Str
    | 0, t => t
    | _ + 1, [] => []
    | fuel + 1, c :: rest =>
      if newlineTagAt (c :: rest) then '\n' :: go fuel (rest.drop 14)
      else c :: go fuel rest

/-- The post-processing chain applied to the rendered text: literal `\n`
becomes a newline, blank lines and lines containing the remove-line sentinel
are dropped, and the forced-newline sentinel becomes a newline. -/
def postProcess (s : Str) : Str :=
  let s1 := jsReplaceAll (sL "\\n") (sL "\n") s
  let kept := (splitOnChar '\n' s1).filter
    (fun l => jsTrim l ≠ [] && !(jsIncludes l removeLineTag))
  replaceNewlineTag ((kept.intersperse (sL "\n")).flatten)

/-- Compile (against a shape's grammar) and render one template against one
namespace instance: the composition exercised by `format` for each of the two
configured templates.  (The `\x7bdebug.modifier\x7d`/`\x7bdebug.comparator\x7d`
pre-replacement of `compileTemplate` replaces those two literal tags before
compilation; no template studied below contains them, so it is the identity
here and is not modelled.) -/
def renderTemplate (shape : Shape) (tmpl : String) (pv : ParseValue) (st : Store)
    (g : JQ) : Str × Store × Bool :=
  let re :=
    match buildRegexExpression shape with
    | .ok r => r
    | .error _ => RE.eps
  let c := compileTemplateHelper re tmpl.toList
  let (out, st', u) := runCompiled shape pv g c st
  (postProcess out, st', u)

/-! ## Concrete records used in the claim statements -/

/-- A namespace instance of the standard shape with every field null. -/
def pvStd0 : ParseValue :=
  stdShape.map (fun sec => (sec.1, sec.2.map (fun f => (f, JSVal.vNull))))

/-- Overwrite one field of a namespace instance. -/
def setPV (pv : ParseValue) (sec field : String) (v : JSVal) : ParseValue :=
  pv.map (fun s =>
    if s.1 = sec then
      (s.1, s.2.map (fun p => if p.1 = field then (p.1, v) else p))
    else s)

/-- A record with `config.addonName = "AIO"` and `stream.size = 1024`
(all other fields null). -/
def pvC1 : ParseValue :=
  setPV (setPV pvStd0 "config" "addonName" (.vStr (sL "AIO")))
    "stream" "size" (.vNum (JQ.ofNat 1024))

/-- A record with `stream.filename = "a"` (all other fields null). -/
def pvC9 : ParseValue := setPV pvStd0 "stream" "filename" (.vStr (sL "a"))

/-! ## Claim C1 -/

/-- The nesting test template of the specification. -/
def c1Template : String :=
  "\x7bconfig.addonName::length::>=\x7bstream.size::string::length\x7d\x7d"

/-- C1.  The specification requires that for
`{config.addonName::length::>={stream.size::string::length}}` with
`config.addonName = "AIO"` and `stream.size = 1024`, the inner expression
resolve first (to `"4"`), be spliced at the correct offset, and the outer
prefix comparator then compare numerically, `3 >= 4`, resolving to `false`.
The code resolves the inner expression to `"4"` as required (first conjunct),
but the splice offset for a placeholder in the variable text is computed in
span coordinates (`relativeInsertIndex`, counted from the `{`) while
`numWhitespaceRemovedBeforeN` is indexed over the brace-stripped text: for
this template the read is out of range, the offset arithmetic becomes `NaN`,
`slice` coerces it to `0`, and the resolved `"4"` is prepended instead of
spliced — the final variable text starts `4config...` and the whole expression
renders as the `{unknown_variableType(undefined)}` error tag instead of
`false` (second and third conjuncts). -/
theorem c1_nested_splice_bug :
    (parseVariable stdShape pvC1 (JQ.ofNat 0)
        (sL "stream.size::string::length") none []).1 =
      {result := some (.vStr (sL "4"))} ∧
    (renderTemplate stdShape c1Template pvC1 [] (JQ.ofNat 0)).1 =
      sL "\x7bunknown_variableType(undefined)\x7d" ∧
    (renderTemplate stdShape c1Template pvC1 [] (JQ.ofNat 0)).1 ≠ sL "false" := by
  refine ⟨by decide, by decide, by decide⟩

/-! ## Claim C2 -/

/-- The unknown-field template of the specification. -/
def c2Template : String := "\x7bstream.doesnotexist\x7d"

/-- C2 (counterexample).  The claim states that rendering
`{stream.doesnotexist}` produces the literal error tag
`{unknown_propertyName(stream.doesnotexist)}` on every record; on the record
`pvC1` the rendering is the unchanged literal text `{stream.doesnotexist}`,
not that tag. -/
theorem c2_unknown_field_counterexample :
    (renderTemplate stdShape c2Template pvC1 [] (JQ.ofNat 0)).1 =
      sL "\x7bstream.doesnotexist\x7d" ∧
    (renderTemplate stdShape c2Template pvC1 [] (JQ.ofNat 0)).1 ≠
      sL "\x7bunknown_propertyName(stream.doesnotexist)\x7d" := by
  refine ⟨by decide, by decide⟩

/-- C2 (amended).  For every record, every store and every randomness value,
rendering `{stream.doesnotexist}` yields the literal template text unchanged:
`doesnotexist` is not a field of the `stream` section, so the anchored grammar
never recognizes the span and it passes through as literal text (the
`unknown_propertyName` branch of `parseModifiedVariable` is not reached). -/
theorem c2_unknown_field_passthrough (pv : ParseValue) (st : Store) (g : JQ) :
    (renderTemplate stdShape c2Template pv st g).1 =
      sL "\x7bstream.doesnotexist\x7d" := rfl

/-! ## Lemmas about the comparator reduce -/

/-- An errored accumulator absorbs the rest of the reduce. -/
theorem reduceFold_absorb (fns : CompFns) (st : Store) :
    ∀ (t : List RVal) (h : RVal) (i : Nat), h.error.isSome →
      reduceFold fns st h t i = h := by
  intro t
  induction t with
  | nil => intro h i _; rfl
  | cons c rest ih =>
    intro h i hp
    have hstep : reduceStep fns st h c i = h := by
      simp [reduceStep, hp]
    simp [reduceFold, hstep, ih h (i + 1) hp]

/-- Splitting a reduce at an intermediate point. -/
theorem reduceFold_append (fns : CompFns) (st : Store) :
    ∀ (t1 t2 : List RVal) (h : RVal) (i : Nat),
      reduceFold fns st h (t1 ++ t2) i =
        reduceFold fns st (reduceFold fns st h t1 i) t2 (i + t1.length) := by
  intro t1
  induction t1 with
  | nil => intro t2 h i; rfl
  | cons c rest ih =>
    intro t2 h i
    simp only [List.cons_append, List.append_eq, reduceFold, List.length_cons]
    rw [ih t2 (reduceStep fns st h c i) (i + 1)]
    congr 1
    omega

/-- With every comparator key resolved in the table, any error coming out of
the reduce originates in the accumulator or in one of the operands. -/
theorem reduceFold_error_origin (fns : CompFns) (st : Store)
    (hfns : ∀ p ∈ fns, (p.1).isSome = true) :
    ∀ (t : List RVal) (h : RVal) (i : Nat) (e : Str),
      (reduceFold fns st h t i).error = some e →
      h.error = some e ∨ ∃ r ∈ t, r.error = some e := by
  intro t
  induction t with
  | nil => intro h i e he; exact Or.inl he
  | cons c rest ih =>
    intro h i e he
    rcases ih (reduceStep fns st h c i) (i + 1) e he with hstep | ⟨r, hr, hre⟩
    · by_cases hp : h.error.isSome
      · left
        rwa [show reduceStep fns st h c i = h by simp [reduceStep, hp]] at hstep
      · by_cases hc : c.error.isSome
        · right
          refine ⟨c, List.mem_cons_self _ _, ?_⟩
          rwa [show reduceStep fns st h c i = c by simp [reduceStep, hp, hc]] at hstep
        · exfalso
          have : (reduceStep fns st h c i).error = none := by
            simp only [reduceStep, hp, hc]
            cases hfk : fns[i - 1]? with
            | none => simp
            | some p =>
              have hmem : p ∈ fns := List.getElem?_mem hfk
              have := hfns p hmem
              cases hfp : p.1 with
              | none => rw [hfp] at this; simp at this
              | some fn =>
                obtain ⟨f1, k1⟩ := p
                simp_all
          rw [this] at hstep
          cases hstep
    · exact Or.inr ⟨r, List.mem_cons_of_mem _ hr, hre⟩

/-! ## Claim C5 -/

/-- The template used to exhibit the inline `CannotCoerceBoolean` tag. -/
def c5ErrTemplate : String := "\x7bconfig.addonName[\x22Y\x22||\x22N\x22]\x7d"

/-- The template used to exhibit true-branch selection. -/
def c5TrueTemplate : String := "\x7bstream.proxied::istrue[\x22Y\x22||\x22N\x22]\x7d"

/-- A record with `stream.proxied = true` and `config.addonName = "AIO"`. -/
def pvC5 : ParseValue := setPV pvC1 "stream" "proxied" (.vBool true)

/-- C5.  For an expression carrying a conditional suffix: a reduced result
that is exactly boolean selects the matching branch text (first conjunct); any
non-boolean reduced result is replaced by the `CannotCoerceBoolean` error tag
— a value, never a thrown exception (second conjunct; the wrapper is a total
function).  Concretely, `{stream.proxied::istrue["Y"||"N"]}` with
`proxied = true` renders `Y`, and `{config.addonName["Y"||"N"]}` with the
string value `"AIO"` renders the inline tag
`{cannot_coerce_boolean_for_check_from(AIO)}` (third and fourth conjuncts). -/
theorem c5_check_branch_selection :
    (∀ (st : Store) (t f : Str) (rv : RVal) (b : Bool),
      rv.result = some (.vBool b) →
      applyCheckTF st (some (t, f)) rv = {result := some (.vStr (if b then t else f))}) ∧
    (∀ (st : Store) (t f : Str) (rv : RVal),
      (∀ b, rv.result ≠ some (.vBool b)) →
      applyCheckTF st (some (t, f)) rv = {error := some (cannotCoerceTag st rv.result)}) ∧
    (renderTemplate stdShape c5TrueTemplate pvC5 [] (JQ.ofNat 0)).1 = sL "Y" ∧
    (renderTemplate stdShape c5ErrTemplate pvC5 [] (JQ.ofNat 0)).1 =
      sL "\x7bcannot_coerce_boolean_for_check_from(AIO)\x7d" := by
  refine ⟨?_, ?_, by decide, by decide⟩
  · intro st t f rv b h
    cases b <;> simp [applyCheckTF, h]
  · intro st t f rv h
    simp [applyCheckTF, h true, h false]

/-- C5 (witness): the two universally quantified conjuncts applied at concrete
inputs. -/
theorem c5_check_branch_selection_witness :
    applyCheckTF [] (some (sL "Y", sL "N")) {result := some (.vBool true)} =
      {result := some (.vStr (if true then sL "Y" else sL "N"))} ∧
    applyCheckTF [] (some (sL "Y", sL "N")) {result := some (.vStr (sL "AIO"))} =
      {error := some (cannotCoerceTag [] (some (.vStr (sL "AIO"))))} :=
  ⟨c5_check_branch_selection.1 [] (sL "Y") (sL "N") _ true rfl,
   c5_check_branch_selection.2.1 [] (sL "Y") (sL "N") _ (by decide)⟩

/-! ## Claim C9 -/

/-- The template whose comparator is spelled in uppercase. -/
def c9Template : String := "\x7bstream.filename::AND::stream.filename\x7d"

/-- C9 (counterexample).  The claim states the `unable_to_compare` error can
never appear in rendered output because the seven comparator functions never
throw.  The functions are indeed total, but the grammar accepts comparator
keys case-insensitively while `comparatorKeyToFuncs` is looked up
case-sensitively: for `{stream.filename::AND::stream.filename}` the key `AND`
misses the table, invoking the absent entry throws, and the catch renders the
`unable_to_compare` tag — which therefore does appear in the output. -/
theorem c9_incomparable_tag_reachable :
    startsW (renderTemplate stdShape c9Template pvC9 [] (JQ.ofNat 0)).1
      (sL "\x7bunable_to_compare(<a>::AND::<a>,") = true := by decide

/-- C9 (amended).  Each of the seven comparator functions is a total function
(they exist as total functions for exactly the lowercase keys, first
conjunct); consequently, whenever every comparator key of an expression
resolves in the function table — i.e. every key is spelled in lowercase — the
comparator reduce never manufactures an `unable_to_compare` error: any error
it returns is one of the operand errors (second conjunct).  The
`unable_to_compare` tag is reachable only through a comparator spelling whose
case-sensitive lookup misses, as `c9_incomparable_tag_reachable` shows. -/
theorem c9_comparator_totality :
    (∀ k ∈ comparatorKeys, (comparatorKeyToFuncs (sL k)).isSome = true) ∧
    (∀ (fns : CompFns) (st : Store) (h : RVal) (t : List RVal) (e : Str),
      (∀ p ∈ fns, (p.1).isSome = true) →
      (reduceFold fns st h t 1).error = some e →
      h.error = some e ∨ ∃ r ∈ t, r.error = some e) := by
  constructor
  · intro k hk
    fin_cases hk <;> decide
  · intro fns st h t e hfns
    exact reduceFold_error_origin fns st hfns t h 1 e

/-- C9 (witness): the totality conjunct at the key `and`, and the
error-origin conjunct on a concrete reduce whose first operand errs. -/
theorem c9_comparator_totality_witness :
    (comparatorKeyToFuncs (sL "and")).isSome = true ∧
    (({error := some (sL "E")} : RVal).error = some (sL "E") ∨
      ∃ r ∈ ([] : List RVal), r.error = some (sL "E")) :=
  ⟨c9_comparator_totality.1 "and" (by decide),
   c9_comparator_totality.2 [] [] {error := some (sL "E")} [] (sL "E")
     (by intro p hp; cases hp) (by decide)⟩

/-! ## Claim C7 -/

/-- The comparator reduction of `parseVariable` over the list of segment
results (`resolvedVariables.reduce`): the head seeds the accumulator and the
callback index starts at 1; the empty list (unreachable — a split yields at
least one piece) is given the inert result. -/
def reduceAll (fns : CompFns) (st : Store) : List RVal → RVal
  | [] => {result := none}
  | h :: t => reduceFold fns st h t 1

/-- C7.  Reduction is pairwise left-to-right, and the first segment carrying
an error — provided the reduction of the segments before it produced no error
— is returned as the final resolved value of the whole expression, for every
choice of the later segments (first conjunct); in particular, if the first
operand of a comparator chain resolves to an error (such as an
unknown-variable error), the overall result is exactly that first operand,
regardless of the remaining operands and comparators (second conjunct). -/
theorem c7_first_error_short_circuit :
    (∀ (fns : CompFns) (st : Store) (pre : List RVal) (x : RVal) (suf : List RVal) (e : Str),
      x.error = some e → (reduceAll fns st pre).error = none →
      reduceAll fns st (pre ++ x :: suf) = x) ∧
    (∀ (fns : CompFns) (st : Store) (x : RVal) (suf : List RVal) (e : Str),
      x.error = some e → reduceAll fns st (x :: suf) = x) := by
  have habs : ∀ (fns : CompFns) (st : Store) (x : RVal) (suf : List RVal) (e : Str),
      x.error = some e → reduceAll fns st (x :: suf) = x := by
    intro fns st x suf e hx
    exact reduceFold_absorb fns st suf x 1 (by simp [hx])
  refine ⟨?_, habs⟩
  intro fns st pre x suf e hx hpre
  cases pre with
  | nil => exact habs fns st x suf e hx
  | cons h t =>
    show reduceFold fns st h (t ++ x :: suf) 1 = x
    rw [reduceFold_append fns st t (x :: suf) h 1]
    have hA : (reduceFold fns st h t 1).error = none := hpre
    have hstep : reduceStep fns st (reduceFold fns st h t 1) x (1 + t.length) = x := by
      simp [reduceStep, hA, hx]
    simp only [reduceFold, hstep]
    exact reduceFold_absorb fns st suf x (1 + t.length + 1) (by simp [hx])

/-- C7 (witness): a two-segment chain whose first operand errs reduces to that
first operand. -/
theorem c7_first_error_short_circuit_witness :
    reduceAll [(comparatorKeyToFuncs (sL "and"), sL "and")] []
      ({error := some (sL "E")} :: [{result := some (.vBool true)}]) =
      {error := some (sL "E")} :=
  c7_first_error_short_circuit.2 _ _ _ _ (sL "E") rfl

/-! ## Claim C4 -/

/-- The claim as stated, restricted to its numeric clause: for EVERY prefix
conditional modifier (including `$`, `^`, `~`), whenever both the stringified
operand and the comparison literal parse as numbers after the comma-whitespace
stripping, the comparison is performed numerically — i.e. the boolean outcome
is a function of the prefix and the two parsed numbers alone. -/
def ClaimC4NumericScope : Prop :=
  ∃ numSem : Str → JNum → JNum → Bool,
    ∀ (g : JQ) (st : Store) (v : Option JSVal) (m0 : Str) (p : Str) (nv nc : JNum),
      isExactMod (lowerS m0) = false →
      isPfxMod (lowerS m0) = true →
      existsV st v = true →
      pfxLongest (lowerS m0) = some p →
      jsNumber (stripCommaWs (pfxStringValue st v)) = some nv →
      jsNumber (stripCommaWs (pfxStringCheck (pfxStringValue st v) (lowerS m0) p)) = some nc →
      applySingleModifier g st v m0 = (some (.vBool (numSem p nv nc)), st, false)

/-- C4 (counterexample).  The numeric-coercion clause does not hold for all
eight prefixes: under the `~` (contains) prefix both sides of
`"00.5" ~ "0.5"` and of `"0.5" ~ "00.5"` parse to the same pair of numbers,
yet the code answers `true` for the first and `false` for the second — the
comparison is the string containment, not a function of the parsed numbers.
(The source restricts the numeric comparison to the ordering/equality
prefixes `< <= > >= =`.) -/
theorem c4_numeric_scope_counterexample : ¬ ClaimC4NumericScope := by
  rintro ⟨numSem, h⟩
  have hA := h (JQ.ofNat 0) [] (some (.vStr (sL "00.5"))) (sL "~0.5") (sL "~")
    (.fin ⟨5, 10⟩) (.fin ⟨5, 10⟩)
    (by decide) (by decide) (by decide) (by decide) (by decide) (by decide)
  have hB := h (JQ.ofNat 0) [] (some (.vStr (sL "0.5"))) (sL "~00.5") (sL "~")
    (.fin ⟨5, 10⟩) (.fin ⟨5, 10⟩)
    (by decide) (by decide) (by decide) (by decide) (by decide) (by decide)
  have hA2 : applySingleModifier (JQ.ofNat 0) [] (some (.vStr (sL "00.5"))) (sL "~0.5") =
      (some (.vBool true), [], false) := by decide
  have hB2 : applySingleModifier (JQ.ofNat 0) [] (some (.vStr (sL "0.5"))) (sL "~00.5") =
      (some (.vBool false), [], false) := by decide
  rw [hA2] at hA
  rw [hB2] at hB
  simp only [Prod.mk.injEq, Option.some.injEq, JSVal.vBool.injEq, and_true] at hA hB
  exact absurd (hA.trans hB.symm) (by decide)

/-- C4 (amended).  For a prefix conditional modifier applied to a value that
passes the `exists` pre-check: when the longest matching prefix is one of the
ordering/equality prefixes (`< <= > >= =`) and both the stringified,
lower-cased operand and the comparison literal (whitespace removed from the
literal exactly when the operand contains none) parse as numbers after
stripping each comma-followed-by-whitespace pair, the comparison is numeric
(first conjunct); otherwise — a non-ordering prefix (`$`, `^`, `~`) or a
non-numeric side — it is the case-insensitive string comparison on those same
preprocessed strings (second conjunct).  A value failing the pre-check yields
`false` directly (third conjunct), and every conditional-prefix application
returns a boolean and leaves the store unchanged — errors and exceptions never
propagate out of it (fourth conjunct). -/
theorem c4_prefix_conditional_semantics :
    (∀ (g : JQ) (st : Store) (v : Option JSVal) (m0 : Str) (p : Str) (nv nc : JNum),
      isExactMod (lowerS m0) = false →
      isPfxMod (lowerS m0) = true →
      existsV st v = true →
      pfxLongest (lowerS m0) = some p →
      p ∈ numericPfxKeys →
      jsNumber (stripCommaWs (pfxStringValue st v)) = some nv →
      jsNumber (stripCommaWs (pfxStringCheck (pfxStringValue st v) (lowerS m0) p)) = some nc →
      applySingleModifier g st v m0 = (some (.vBool (numPfxCompare p nv nc)), st, false)) ∧
    (∀ (g : JQ) (st : Store) (v : Option JSVal) (m0 : Str) (p : Str),
      isExactMod (lowerS m0) = false →
      isPfxMod (lowerS m0) = true →
      existsV st v = true →
      pfxLongest (lowerS m0) = some p →
      (p ∉ numericPfxKeys ∨
        jsNumber (stripCommaWs (pfxStringValue st v)) = none ∨
        jsNumber (stripCommaWs (pfxStringCheck (pfxStringValue st v) (lowerS m0) p)) = none) →
      applySingleModifier g st v m0 =
        (some (.vBool (strPfxCompare p (pfxStringValue st v)
          (pfxStringCheck (pfxStringValue st v) (lowerS m0) p))), st, false)) ∧
    (∀ (g : JQ) (st : Store) (v : Option JSVal) (m0 : Str),
      (isExactMod (lowerS m0) || isPfxMod (lowerS m0)) = true →
      existsV st v = false →
      applySingleModifier g st v m0 = (some (.vBool false), st, false)) ∧
    (∀ (g : JQ) (st : Store) (v : Option JSVal) (m0 : Str),
      isPfxMod (lowerS m0) = true →
      ∃ b, applySingleModifier g st v m0 = (some (.vBool b), st, false)) := by
  refine ⟨?_, ?_, ?_, ?_⟩
  · intro g st v m0 p nv nc hE hP hEx hL hmem hnv hnc
    simp [applySingleModifier, condResult, condPfx, hE, hP, hEx, hL, hnv, hnc, hmem]
  · intro g st v m0 p hE hP hEx hL hcase
    rcases hcase with hmem | hnv | hnc
    · simp only [applySingleModifier, condResult, condPfx, hE, hP, hEx, hL]
      simp only [Bool.false_or, if_true, Bool.not_true, Bool.false_eq_true, if_false,
        Bool.if_false_left]
      cases hv : jsNumber (stripCommaWs (pfxStringValue st v)) <;>
        cases hc : jsNumber (stripCommaWs (pfxStringCheck (pfxStringValue st v) (lowerS m0) p)) <;>
          simp [hmem]
    · simp [applySingleModifier, condResult, condPfx, hE, hP, hEx, hL, hnv]
    · simp only [applySingleModifier, condResult, condPfx, hE, hP, hEx, hL]
      cases hv : jsNumber (stripCommaWs (pfxStringValue st v)) <;> simp [hnc, hv]
  · intro g st v m0 hCond hEx
    simp [applySingleModifier, condResult, hCond, hEx]
  · intro g st v m0 hP
    exact ⟨condResult st v (lowerS m0), by simp [applySingleModifier, hP]⟩

/-- C4 (witness): the numeric conjunct at `"3" >= "4"` (numerically false)
and at the hexadecimal pair `"0x10" = "16"` (both `Number()`-coerce to `16`,
numerically true), the string conjunct at `"00.5" ~ "0.5"` (containment,
true), and the pre-check conjunct on a null value. -/
theorem c4_prefix_conditional_semantics_witness :
    applySingleModifier (JQ.ofNat 0) [] (some (.vStr (sL "3"))) (sL ">=4") =
      (some (.vBool (numPfxCompare (sL ">=") (.fin ⟨3, 1⟩) (.fin ⟨4, 1⟩))), [], false) ∧
    applySingleModifier (JQ.ofNat 0) [] (some (.vStr (sL "0x10"))) (sL "=16") =
      (some (.vBool (numPfxCompare (sL "=") (.fin ⟨16, 1⟩) (.fin ⟨16, 1⟩))), [], false) ∧
    applySingleModifier (JQ.ofNat 0) [] (some (.vStr (sL "00.5"))) (sL "~0.5") =
      (some (.vBool (strPfxCompare (sL "~") (sL "00.5") (sL "0.5"))), [], false) ∧
    applySingleModifier (JQ.ofNat 0) [] (some .vNull) (sL "=null") =
      (some (.vBool false), [], false) := by
  refine ⟨?_, ?_, ?_, ?_⟩
  · exact c4_prefix_conditional_semantics.1 _ _ _ _ (sL ">=") (.fin ⟨3, 1⟩) (.fin ⟨4, 1⟩)
      (by decide) (by decide) (by decide) (by decide) (by decide) (by decide) (by decide)
  · exact c4_prefix_conditional_semantics.1 _ _ _ _ (sL "=") (.fin ⟨16, 1⟩) (.fin ⟨16, 1⟩)
      (by decide) (by decide) (by decide) (by decide) (by decide) (by decide) (by decide)
  · have h := c4_prefix_conditional_semantics.2.1 (JQ.ofNat 0) []
      (some (.vStr (sL "00.5"))) (sL "~0.5") (sL "~")
      (by decide) (by decide) (by decide) (by decide) (Or.inl (by decide))
    exact h.trans (by decide)
  · exact c4_prefix_conditional_semantics.2.2.1 _ _ _ _ (by decide) (by decide)

/-! ## Claim C6 -/

/-- Claim-side collision predicate: some later name lower-cases equal to an
earlier one. -/
def hasCIDupB : List String → Bool
  | [] => false
  | n :: rest => rest.any (fun k => lowerStr k == lowerStr n) || hasCIDupB rest

theorem list_any_congr2 {α : Type} (l : List α) (f g : α → Bool)
    (h : ∀ x ∈ l, f x = g x) : l.any f = l.any g := by
  induction l with
  | nil => rfl
  | cons a rest ih =>
    simp only [List.any_cons, h a (List.mem_cons_self a rest),
      ih (fun x hx => h x (List.mem_cons_of_mem a hx))]

theorem list_all_map {α β : Type} (l : List α) (f : α → β) (p : β → Bool) :
    (l.map f).all p = l.all (fun x => p (f x)) := by
  induction l with
  | nil => rfl
  | cons a rest ih => simp [ih]

theorem list_any_or {α : Type} (l : List α) (f g : α → Bool) :
    l.any (fun x => f x || g x) = (l.any f || l.any g) := by
  induction l with
  | nil => rfl
  | cons a rest ih => cases hf : f a <;> cases hg : g a <;> simp [hf, hg, ih]

theorem checkDups_go_ok (pre : String) :
    ∀ (names : List String) (acc : List String),
      isOkE (checkDupsCI.go pre names acc) =
        !(names.any (fun n => acc.contains (lowerStr n)) || hasCIDupB names) := by
  intro names
  induction names with
  | nil => intro acc; simp [checkDupsCI.go, isOkE, hasCIDupB]
  | cons n rest ih =>
    intro acc
    by_cases hc : lowerStr n ∈ acc
    · simp [checkDupsCI.go, hc, isOkE]
    · simp only [checkDupsCI.go, List.elem_eq_mem, hc, decide_False, Bool.false_eq_true,
        if_false, ih, List.any_cons, hasCIDupB, List.contains_cons, list_any_or]
      cases h1 : rest.any fun k => acc.contains (lowerStr k) <;>
        cases h2 : rest.any fun k => lowerStr k == lowerStr n <;>
          cases h3 : hasCIDupB rest <;> simp_all <;>
            first
              | (exact list_any_congr2 rest _ _ (fun x hx => by simp [h2 x hx]))
              | (obtain ⟨x, hx, he⟩ := h2; exact ⟨x, hx, Or.inl he⟩)

theorem checkDups_go_val (pre : String) :
    ∀ (names : List String) (acc : List String),
      isOkE (checkDupsCI.go pre names acc) = true →
      checkDupsCI.go pre names acc = .ok (acc.reverse ++ names.map lowerStr) := by
  intro names
  induction names with
  | nil => intro acc _; simp [checkDupsCI.go]
  | cons n rest ih =>
    intro acc hok
    by_cases hc : lowerStr n ∈ acc
    · simp [checkDupsCI.go, hc, isOkE] at hok
    · simp only [checkDupsCI.go, List.elem_eq_mem, hc, decide_False, Bool.false_eq_true,
        if_false] at hok ⊢
      rw [ih (lowerStr n :: acc) hok]
      simp

theorem isOkE_map {α β : Type} (f : α → β) (e : Except String α) :
    isOkE (Except.map f e) = isOkE e := by
  cases e <;> rfl

theorem except_mapM_ok {α β : Type} (f : α → Except String β) :
    ∀ (l : List α), isOkE (l.mapM f) = l.all (fun x => isOkE (f x)) := by
  have hloop : ∀ (l : List α) (acc : List β),
      isOkE (List.mapM.loop f l acc) = l.all (fun x => isOkE (f x)) := by
    intro l
    induction l with
    | nil => intro acc; simp [List.mapM.loop, isOkE, pure, Except.pure]
    | cons a rest ih =>
      intro acc
      cases hf : f a with
      | error e => simp [List.mapM.loop, hf, isOkE, Bind.bind, Except.bind]
      | ok b =>
        have hstep : List.mapM.loop f (a :: rest) acc = List.mapM.loop f rest (b :: acc) := by
          simp [List.mapM.loop, hf, Bind.bind, Except.bind]
        rw [hstep, ih, List.all_cons, hf]
        simp [isOkE]
  intro l
  exact hloop l []

theorem hasCIDupB_false_nodup :
    ∀ (names : List String), hasCIDupB names = false → names.Nodup := by
  intro names
  induction names with
  | nil => intro _; exact List.nodup_nil
  | cons n rest ih =>
    intro h
    simp only [hasCIDupB, Bool.or_eq_false_iff] at h
    refine List.nodup_cons.mpr ⟨?_, ih h.2⟩
    intro hmem
    have := List.any_eq_false.mp h.1 n hmem
    simp at this

theorem lookup_self :
    ∀ (shape : Shape), (shape.map (·.1)).Nodup →
      ∀ s ∈ shape, shape.lookup s.1 = some s.2 := by
  intro shape
  induction shape with
  | nil => intro _ s hs; cases hs
  | cons hd tl ih =>
    intro hnd s hs
    rw [List.map_cons] at hnd
    have hnd' := List.nodup_cons.mp hnd
    cases hs with
    | head => simp [List.lookup]
    | tail _ hmem =>
      have hne : s.1 ≠ hd.1 := by
        intro he
        exact hnd'.1 (he ▸ List.mem_map_of_mem (·.1) hmem)
      simp only [List.lookup]
      rw [show (s.1 == hd.1) = false from beq_eq_false_iff_ne.mpr hne]
      exact ih hnd'.2 s hmem

theorem list_all_congr {α : Type} (l : List α) (f g : α → Bool)
    (h : ∀ x ∈ l, f x = g x) : l.all f = l.all g := by
  induction l with
  | nil => rfl
  | cons a rest ih =>
    simp only [List.all_cons, h a (List.mem_cons_self a rest),
      ih (fun x hx => h x (List.mem_cons_of_mem a hx))]

/-- C6.  For namespace shapes of the `ParseValue` kind — section names are the
fixed lower-case literals of the type — grammar construction fails (the
`Must Remove Case-Insensitive Duplicate` error is thrown during formatter
configuration, before any record is rendered) exactly when two section names,
or two field names within a single section, coincide case-insensitively; in
particular a collision-free shape constructs without error. -/
theorem c6_collision_fails_construction (shape : Shape)
    (hlc : ∀ s ∈ shape, lowerStr s.1 = s.1) :
    isOkE (buildRegexExpression shape) = false ↔
      (hasCIDupB (shape.map (·.1)) || shape.any (fun s => hasCIDupB s.2)) = true := by
  rw [show buildRegexExpression shape
      = Except.map (fun v =>
          reSeqs [.lit lb, RE.seq v (RE.star modifierRE),
            RE.star (reSeqs [comparatorRE, RE.seq v (RE.star modifierRE)]),
            .opt tzRE, .opt checkRE, .lit rb]) (buildVariableRegexPattern shape) from rfl,
    isOkE_map]
  show isOkE ((checkDupsCI "" (shape.map (·.1))).bind _) = false ↔ _
  have hgo := checkDups_go_ok "" (shape.map (·.1)) []
  cases hsec : checkDupsCI.go "" (shape.map (·.1)) [] with
  | error e =>
    rw [hsec] at hgo
    have hdup : hasCIDupB (shape.map (·.1)) = true := by
      simp [isOkE] at hgo
      exact hgo
    rw [show checkDupsCI "" (shape.map (·.1)) = Except.error e from hsec]
    simp [Except.bind, isOkE, hdup]
  | ok secs =>
    rw [hsec] at hgo
    have hnodup : hasCIDupB (shape.map (·.1)) = false := by
      simp [isOkE] at hgo
      exact hgo
    have hsecs : secs = shape.map (·.1) := by
      have h := checkDups_go_val "" (shape.map (·.1)) [] (by rw [hsec]; rfl)
      rw [hsec] at h
      have h2 : secs = (shape.map (·.1)).map lowerStr := by simpa using h
      rw [h2]
      refine (List.map_congr_left ?_).trans (List.map_id _)
      intro n hn
      obtain ⟨s, hs, rfl⟩ := List.mem_map.mp hn
      exact hlc s hs
    have hnd : (shape.map (·.1)).Nodup := hasCIDupB_false_nodup _ hnodup
    rw [show checkDupsCI "" (shape.map (·.1)) = Except.ok secs from hsec]
    have hbind : ((Except.ok secs).bind (fun secs =>
        Except.map (fun branches => reAlts branches.flatten)
          (secs.mapM (sectionBranch shape)))) =
        Except.map (fun branches => reAlts branches.flatten)
          (secs.mapM (sectionBranch shape)) := rfl
    rw [hbind, isOkE_map, hsecs, except_mapM_ok]
    have hall : (shape.map (·.1)).all (fun n => isOkE (sectionBranch shape n)) =
        shape.all (fun s => !hasCIDupB s.2) := by
      rw [list_all_map]
      refine list_all_congr _ _ _ ?_
      intro s hs
      show isOkE (sectionBranch shape s.1) = !hasCIDupB s.2
      rw [sectionBranch, lookup_self shape hnd s hs]
      rw [isOkE_map]
      have h := checkDups_go_ok (s.1 ++ ".") s.2 []
      rw [show checkDupsCI (s.1 ++ ".") s.2 = checkDupsCI.go (s.1 ++ ".") s.2 [] from rfl]
      rw [h]
      simp
    rw [hall, hnodup]
    simp only [Bool.false_or]
    constructor
    · intro h
      by_contra hno
      simp only [Bool.not_eq_true] at hno
      have : shape.all (fun s => !hasCIDupB s.2) = true := by
        rw [List.all_eq_true]
        intro s hs
        have := List.any_eq_false.mp hno s hs
        simp [this]
      rw [this] at h
      cases h
    · intro h
      obtain ⟨s, hs, hdup⟩ := List.any_eq_true.mp h
      rw [Bool.eq_false_iff]
      intro hall2
      have := List.all_eq_true.mp hall2 s hs
      rw [hdup] at this
      cases this

/-- C6 (witness): a shape whose `stream` section carries a case-insensitive
field collision is rejected, and the standard shape is accepted. -/
theorem c6_collision_fails_construction_witness :
    isOkE (buildRegexExpression [("stream", ["addonName", "ADDONNAME"])]) = false ∧
    isOkE (buildRegexExpression stdShape) = true := by
  constructor
  · exact (c6_collision_fails_construction [("stream", ["addonName", "ADDONNAME"])]
      (by decide)).mpr (by decide)
  · by_contra h
    simp only [Bool.not_eq_true] at h
    have := (c6_collision_fails_construction stdShape (by decide)).mp h
    revert this
    decide

/-! ## Claim C3 -/

/-- No bracketed span of `s` whitespace-strips to a full match of the grammar
`re`: for every `l < i` with `s[l] = '\x7b'` and `s[i] = '\x7d'`, the anchored
match of the stripped candidate fails. -/
def noGrammarSpan (re : RE) (s : Str) : Bool :=
  (List.range s.length).all fun i =>
    (List.range i).all fun l =>
      !((s[l]?).getD ' ' == lb && (s[i]?).getD ' ' == rb &&
        reMatchesFull true re (removeWs (jsSlice s l (i + 1))))

theorem noGrammarSpan_spec (re : RE) (s : Str) (h : noGrammarSpan re s = true)
    (l i : Nat) (hli : l < i) (hi : i < s.length)
    (hl : (s[l]?).getD ' ' = lb) (hr : (s[i]?).getD ' ' = rb) :
    reMatchesFull true re (removeWs (jsSlice s l (i + 1))) = false := by
  have h1 := List.all_eq_true.mp h i (List.mem_range.mpr hi)
  have h2 := List.all_eq_true.mp h1 l (List.mem_range.mpr hli)
  simpa [hl, hr] using h2

theorem getMatchesRev_none (re : RE) (s : Str) (i : Nat)
    (hno : noGrammarSpan re s = true) (hi : i < s.length)
    (hr : (s[i]?).getD ' ' = rb) :
    ∀ (stackRev : List Nat),
      (∀ l ∈ stackRev, l < i ∧ (s[l]?).getD ' ' = lb) →
      getMatchesRev re s i stackRev = none := by
  intro stackRev
  induction stackRev with
  | nil => intro _; rfl
  | cons lbIdx rest ih =>
    intro hmem
    obtain ⟨hlt, hlb⟩ := hmem lbIdx (List.mem_cons_self _ _)
    have hfail := noGrammarSpan_spec re s hno lbIdx i hlt hi hlb hr
    simp only [getMatchesRev, hfail, Bool.false_eq_true, if_false,
      ih (fun l hl => hmem l (List.mem_cons_of_mem _ hl))]

theorem scanGo_no_match (re : RE) (s : Str) (hno : noGrammarSpan re s = true) :
    ∀ (fuel : Nat) (i : Nat) (stack : List Nat) (fns : List (Nat × CompiledVar)),
      (∀ l ∈ stack, l < i ∧ (s[l]?).getD ' ' = lb) →
      scanGo re fuel s i stack fns = (s, fns) := by
  intro fuel
  induction fuel with
  | zero => intro i stack fns _; rfl
  | succ fuel ih =>
    intro i stack fns hinv
    by_cases hi : i < s.length
    · simp only [scanGo, hi, if_true]
      by_cases hlb : (s[i]?).getD ' ' = lb
      · rw [if_pos hlb]
        apply ih
        intro l hl
        rcases List.mem_append.mp hl with h | h
        · exact ⟨Nat.lt_succ_of_lt (hinv l h).1, (hinv l h).2⟩
        · rw [List.mem_singleton.mp h]
          exact ⟨Nat.lt_succ_self i, hlb⟩
      · rw [if_neg hlb]
        by_cases hrb : (s[i]?).getD ' ' = rb
        · rw [if_pos hrb]
          by_cases hst : stack = []
          · rw [if_pos hst]
            apply ih
            intro l hl
            exact ⟨Nat.lt_succ_of_lt (hinv l hl).1, (hinv l hl).2⟩
          · rw [if_neg hst]
            rw [getMatchesRev_none re s i hno hi hrb stack.reverse
              (fun l hl => hinv l (List.mem_reverse.mp hl))]
            apply ih
            intro l hl
            exact ⟨Nat.lt_succ_of_lt (hinv l hl).1, (hinv l hl).2⟩
        · rw [if_neg hrb]
          apply ih
          intro l hl
          exact ⟨Nat.lt_succ_of_lt (hinv l hl).1, (hinv l hl).2⟩
    · simp only [scanGo, hi, if_false]

theorem compile_noGrammar (re : RE) (s : Str) (hno : noGrammarSpan re s = true) :
    compileTemplateHelper re s = (s, []) := by
  by_cases hs : s = []
  · rw [hs]; rfl
  · rw [compileTemplateHelper, if_neg hs]
    exact scanGo_no_match re s hno (s.length + 1) 0 [] []
      (fun l hl => absurd hl (List.not_mem_nil l))

/-- The grammar of the one-section shape `a.b`, used as a concrete instance. -/
def reSmall : RE :=
  match buildRegexExpression [("a", ["b"])] with
  | .ok r => r
  | .error _ => RE.eps

/-- C3.  A template none of whose bracketed spans strips to a full match of
the anchored grammar compiles to itself with no expression nodes, and renders
(post-processing aside) to itself, mutating nothing: unmatched brackets and
unknown-vocabulary spans pass through as literal text (first conjunct).  A
span the grammar does not recognise does not abort compilation or the
evaluation of the other expressions: alongside an unknown-field span (second
conjunct) and alongside unmatched `\x7b`/`\x7d` characters (third conjunct),
a recognised expression still resolves while the non-grammar text passes
through unchanged.  The boundary is the real grammar's, with the unescaped
`"||"` alternation of the check pattern: a single-branch bracket suffix such
as `["y"]` IS grammar-recognised, so that span is an expression and resolves
to the field value rather than passing through (fourth conjunct). -/
theorem c3_nongrammar_spans_literal :
    (∀ (shape : Shape) (re : RE) (tmpl : String) (pv : ParseValue) (st : Store) (g : JQ),
        buildRegexExpression shape = Except.ok re →
        noGrammarSpan re tmpl.toList = true →
        compileTemplateHelper re tmpl.toList = (tmpl.toList, []) ∧
        renderTemplate shape tmpl pv st g = (postProcess tmpl.toList, st, false)) ∧
    renderTemplate stdShape "\x7bstream.doesnotexist\x7d \x7bconfig.addonName\x7d"
        pvC1 [] (JQ.ofNat 0) =
      (sL "\x7bstream.doesnotexist\x7d AIO", [], false) ∧
    renderTemplate stdShape "a\x7db \x7bconfig.addonName\x7d c\x7b"
        pvC1 [] (JQ.ofNat 0) =
      (sL "a\x7db AIO c\x7b", [], false) ∧
    renderTemplate stdShape "\x7bconfig.addonName[\"y\"]\x7d" pvC1 [] (JQ.ofNat 0) =
      (sL "AIO", [], false) := by
  refine ⟨?_, ?_, ?_, ?_⟩
  · intro shape re tmpl pv st g hre hno
    have hc := compile_noGrammar re tmpl.toList hno
    refine ⟨hc, ?_⟩
    simp only [renderTemplate, hre, hc, runCompiled, List.reverse_nil, renderFns]
  · decide
  · decide
  · decide

/-- C3 (witness): over the one-section shape `a.b`, the template `x\x7by\x7dz`
has no grammar-matching span, compiles to itself with no nodes, and renders to
itself. -/
theorem c3_nongrammar_spans_literal_witness :
    buildRegexExpression [("a", ["b"])] = Except.ok reSmall ∧
    noGrammarSpan reSmall (sL "x\x7by\x7dz") = true ∧
    (compileTemplateHelper reSmall (String.toList "x\x7by\x7dz") =
        (String.toList "x\x7by\x7dz", []) ∧
      renderTemplate [("a", ["b"])] "x\x7by\x7dz" [] [] (JQ.ofNat 0) =
        (postProcess (String.toList "x\x7by\x7dz"), [], false)) := by
  refine ⟨rfl, by decide, ?_⟩
  exact c3_nongrammar_spans_literal.1 [("a", ["b"])] reSmall "x\x7by\x7dz" [] [] (JQ.ofNat 0)
    rfl (by decide)

/-! ## Claim C10 -/

/-- Store preservation: every cell allocated before the call keeps its exact
contents (the heap only ever grows; fresh cells may be appended). -/
def storePres (st st' : Store) : Prop := ∀ i, i < st.length → st'[i]? = st[i]?

theorem storePres_refl (st : Store) : storePres st st := fun _ _ => rfl

theorem storePres_trans {st1 st2 st3 : Store} (h12 : storePres st1 st2)
    (h23 : storePres st2 st3) : storePres st1 st3 := by
  intro i hi
  have h2 : st2[i]? = st1[i]? := h12 i hi
  have hsome : st2[i]? = some st1[i] := h2.trans (List.getElem?_eq_getElem hi)
  obtain ⟨hlt, _⟩ := List.getElem?_eq_some.mp hsome
  exact (h23 i hlt).trans h2

theorem storePres_append (st : Store) (l : Store) : storePres st (st ++ l) := by
  intro i hi
  rw [List.getElem?_append]
  exact if_pos hi

theorem append_set_last (st : Store) (arr res : List Str) :
    (st ++ [arr]).set st.length res = st ++ [res] := by
  induction st with
  | nil => rfl
  | cons a t ih =>
    show a :: (t ++ [arr]).set t.length res = a :: (t ++ [res])
    rw [ih]

theorem allocMutated_eq (st : Store) (arr res : List Str) :
    allocMutated st arr res = st ++ [res] := by
  show (st ++ [arr]).set ((st ++ [arr]).length - 1) res = st ++ [res]
  rw [List.length_append, List.length_singleton, Nat.add_sub_cancel]
  exact append_set_last st arr res

theorem storePres_alloc (st : Store) (arr res : List Str) :
    storePres st (allocMutated st arr res) := by
  rw [allocMutated_eq]
  exact storePres_append st [res]

theorem asm_pres (g : JQ) (st : Store) (varV : Option JSVal) (m : Str) :
    storePres st (applySingleModifier g st varV m).2.1 := by
  simp only [applySingleModifier]
  repeat' split
  all_goals first
    | exact storePres_refl st
    | exact storePres_alloc st _ _

theorem foldMods_pres (g : JQ) (p : Option JSVal) :
    ∀ (mods : List Str) (cur : Option JSVal) (st : Store),
      storePres st (foldMods g p mods cur st).2.1 := by
  intro mods
  induction mods with
  | nil => intro cur st; exact storePres_refl st
  | cons mname rest ih =>
    intro cur st
    rcases ha : applySingleModifier g st cur mname with ⟨r1, st1, u1⟩
    have hp1 : storePres st st1 := by
      have h := asm_pres g st cur mname
      rw [ha] at h
      exact h
    rcases r1 with _ | v
    · simp only [foldMods, ha]
      exact hp1
    · rcases hb : foldMods g p rest (some v) st1 with ⟨rv, st2, u2⟩
      have hp2 : storePres st1 st2 := by
        have h := ih (some v) st1
        rw [hb] at h
        exact h
      simp only [foldMods, ha, hb]
      exact storePres_trans hp1 hp2

theorem pmv_pres (shape : Shape) (pv : ParseValue) (g : JQ) (bs : Str) (st : Store) :
    storePres st (parseModifiedVariable shape pv g bs st).2.1 := by
  simp only [parseModifiedVariable]
  repeat' split
  all_goals first
    | exact storePres_refl st
    | exact foldMods_pres g _ _ _ st

theorem evalSegments_pres (shape : Shape) (pv : ParseValue) (g : JQ) :
    ∀ (segs : List Str) (st : Store),
      storePres st (evalSegments shape pv g segs st).2.1 := by
  intro segs
  induction segs with
  | nil => intro st; exact storePres_refl st
  | cons s rest ih =>
    intro st
    rcases ha : parseModifiedVariable shape pv g s st with ⟨rv, st1, u1⟩
    have hp1 : storePres st st1 := by
      have h := pmv_pres shape pv g s st
      rw [ha] at h
      exact h
    rcases hb : evalSegments shape pv g rest st1 with ⟨rvs, st2, u2⟩
    have hp2 : storePres st1 st2 := by
      have h := ih st1
      rw [hb] at h
      exact h
    simp only [evalSegments, ha, hb]
    exact storePres_trans hp1 hp2

theorem parseVariable_pres (shape : Shape) (pv : ParseValue) (g : JQ)
    (mv : Str) (mc : Option (Str × Str)) (st : Store) :
    storePres st (parseVariable shape pv g mv mc st).2.1 := by
  simp only [parseVariable]
  split
  · rename_i single heq
    rcases ha : parseModifiedVariable shape pv g single st with ⟨rv, st1, u1⟩
    simp only [ha]
    have h := pmv_pres shape pv g single st
    rw [ha] at h
    exact h
  · rcases ha : evalSegments shape pv g (altEvens (reSplitCaptures true comparatorRE mv)) st
      with ⟨rvs, st1, u1⟩
    simp only [ha]
    have h := evalSegments_pres shape pv g (altEvens (reSplitCaptures true comparatorRE mv)) st
    rw [ha] at h
    exact h

theorem foldl_pres {α β : Type} (proj : β → Store) (step : β → α → β)
    (hstep : ∀ acc x, storePres (proj acc) (proj (step acc x))) :
    ∀ (l : List α) (acc : β), storePres (proj acc) (proj (l.foldl step acc)) := by
  intro l
  induction l with
  | nil => intro acc; exact storePres_refl _
  | cons x rest ih =>
    intro acc
    rw [List.foldl_cons]
    exact storePres_trans (hstep acc x) (ih (step acc x))

theorem nodeStep_pres (ev : CompiledVar → Store → RVal × Store × Bool)
    (hev : ∀ cv st, storePres st (ev cv st).2.1) (vtwLen : Nat) (nws : List Nat) :
    ∀ (acc : Str × Option MC × Store × Bool) (child : Nat × CompiledVar),
      storePres acc.2.2.1 ((nodeStep ev vtwLen nws acc child)).2.2.1 := by
  intro acc child
  rcases acc with ⟨vt, mc, stA, u⟩
  rcases ha : ev child.2 stA with ⟨crv, st1, u1⟩
  have h := hev child.2 stA
  rw [ha] at h
  simp only [nodeStep, ha]
  exact h

theorem evalNode_pres (shape : Shape) (pv : ParseValue) (g : JQ) :
    ∀ (fuel : Nat) (cv : CompiledVar) (st : Store),
      storePres st (evalNode shape pv g fuel cv st).2.1 := by
  intro fuel
  induction fuel with
  | zero => intro cv st; exact storePres_refl st
  | succ fuel ih =>
    intro cv st
    cases cv with
    | node gvt vtwLen mcOpt nws nested =>
      have hfold := foldl_pres (fun acc => acc.2.2.1)
        (nodeStep (evalNode shape pv g fuel) vtwLen nws)
        (nodeStep_pres _ ih vtwLen nws) nested (gvt, mcOpt, st, false)
      rcases hfa : nested.foldl (nodeStep (evalNode shape pv g fuel) vtwLen nws)
          (gvt, mcOpt, st, false) with ⟨vt, mcCur, st1, u1⟩
      rw [hfa] at hfold
      rcases hb : parseVariable shape pv g vt (mcCur.map (fun m => (m.t, m.f))) st1
        with ⟨rv, st2, u2⟩
      have hp2 : storePres st1 st2 := by
        have h := parseVariable_pres shape pv g vt (mcCur.map (fun m => (m.t, m.f))) st1
        rw [hb] at h
        exact h
      simp only [evalNode, hfa, hb]
      exact storePres_trans hfold hp2

theorem renderFns_pres (shape : Shape) (pv : ParseValue) (g : JQ) :
    ∀ (fns : List (Nat × CompiledVar)) (resultStr : Str) (st : Store),
      storePres st (renderFns shape pv g fns resultStr st).2.1 := by
  intro fns
  induction fns with
  | nil => intro rs st; exact storePres_refl st
  | cons p rest ih =>
    intro rs st
    rcases p with ⟨idx, nodeV⟩
    rcases ha : evalNode shape pv g evalFuel nodeV st with ⟨rv, st1, u1⟩
    have hp1 : storePres st st1 := by
      have h := evalNode_pres shape pv g evalFuel nodeV st
      rw [ha] at h
      exact h
    rcases hb : renderFns shape pv g rest
        (rs.take idx ++ (rv.error.getD (optToStr st1 rv.result)) ++ rs.drop (idx + 1)) st1
      with ⟨out, st2, u2⟩
    have hp2 : storePres st1 st2 := by
      have h := ih (rs.take idx ++ (rv.error.getD (optToStr st1 rv.result)) ++ rs.drop (idx + 1)) st1
      rw [hb] at h
      exact h
    simp only [renderFns, ha, hb]
    exact storePres_trans hp1 hp2

/-- The record used for the C10 witness: `stream.languages` holds the array
in cell `0` of the store. -/
def pvArr : ParseValue := setPV pvStd0 "stream" "languages" (.vArr 0)

/-- C10.  Rendering a compiled template never mutates the namespace instance:
the evaluator only reads the record, and the `sort`/`reverse` array modifiers
mutate a fresh copy cell (`[...value]`), so every array cell that existed
before the call — in particular every array field of the input instance —
still holds exactly its original contents afterwards. -/
theorem c10_no_namespace_mutation (shape : Shape) (tmpl : String) (pv : ParseValue)
    (st : Store) (g : JQ) :
    ∀ i, i < st.length → (renderTemplate shape tmpl pv st g).2.1[i]? = st[i]? := by
  intro i hi
  rcases ha : runCompiled shape pv g
      (compileTemplateHelper
        (match buildRegexExpression shape with
         | .ok r => r
         | .error _ => RE.eps) tmpl.toList) st with ⟨out, st', u⟩
  have hp : storePres st st' := by
    have h := renderFns_pres shape pv g
      (compileTemplateHelper
        (match buildRegexExpression shape with
         | .ok r => r
         | .error _ => RE.eps) tmpl.toList).2.reverse
      (compileTemplateHelper
        (match buildRegexExpression shape with
         | .ok r => r
         | .error _ => RE.eps) tmpl.toList).1 st
    rw [show renderFns shape pv g
        (compileTemplateHelper
          (match buildRegexExpression shape with
           | .ok r => r
           | .error _ => RE.eps) tmpl.toList).2.reverse
        (compileTemplateHelper
          (match buildRegexExpression shape with
           | .ok r => r
           | .error _ => RE.eps) tmpl.toList).1 st = (out, st', u) from ha] at h
    exact h
  simp only [renderTemplate, ha]
  exact hp i hi

/-- C10 (witness): rendering `\x7bstream.languages::sort\x7d` (whose `sort`
mutates a copy) leaves the original array cell intact. -/
theorem c10_no_namespace_mutation_witness :
    0 < ([[sL "b", sL "a"]] : Store).length ∧
    (renderTemplate stdShape "\x7bstream.languages::sort\x7d" pvArr
        [[sL "b", sL "a"]] (JQ.ofNat 0)).2.1[0]? =
      ([[sL "b", sL "a"]] : Store)[0]? :=
  ⟨by decide,
    c10_no_namespace_mutation stdShape "\x7bstream.languages::sort\x7d" pvArr
      [[sL "b", sL "a"]] (JQ.ofNat 0) 0 (by decide)⟩

/-! ## Claim C8 -/

theorem asm_g_indep (g₁ g₂ : JQ) (st : Store) (varV : Option JSVal) (m : Str)
    (h : (applySingleModifier g₁ st varV m).2.2 = false) :
    applySingleModifier g₂ st varV m = applySingleModifier g₁ st varV m := by
  cases varV with
  | none => rfl
  | some jv =>
    cases jv with
    | vStr s => rfl
    | vNum q => rfl
    | vBool b => rfl
    | vNull => rfl
    | vArr r =>
      by_cases h0 : (isExactMod (lowerS m) || isPfxMod (lowerS m)) = true
      · simp [applySingleModifier, h0]
      · by_cases h1 : lowerS m = sL "join"
        · simp [applySingleModifier, h0, h1]
        · by_cases h2 : lowerS m = sL "length"
          · simp [applySingleModifier, h0, h1, h2]
          · by_cases h3 : lowerS m = sL "first"
            · simp [applySingleModifier, h0, h1, h2, h3]
            · by_cases h4 : lowerS m = sL "last"
              · simp [applySingleModifier, h0, h1, h2, h3, h4]
              · by_cases h5 : lowerS m = sL "random"
                · exfalso
                  have h' : (applySingleModifier g₁ st (some (JSVal.vArr r)) m).2.2 = true := by
                    simp only [applySingleModifier]
                    rw [if_neg h0, if_neg h1, if_neg h2, if_neg h3, if_neg h4, if_pos h5]
                  rw [h'] at h
                  exact absurd h (by decide)
                · simp [applySingleModifier, h0, h1, h2, h3, h4, h5]

theorem foldMods_g_indep (g₁ g₂ : JQ) (p : Option JSVal) :
    ∀ (mods : List Str) (cur : Option JSVal) (st : Store),
      (foldMods g₁ p mods cur st).2.2 = false →
      foldMods g₂ p mods cur st = foldMods g₁ p mods cur st := by
  intro mods
  induction mods with
  | nil => intro cur st _; rfl
  | cons mname rest ih =>
    intro cur st h
    rcases ha : applySingleModifier g₁ st cur mname with ⟨r1, st1, u1⟩
    rcases r1 with _ | v
    · have hu : u1 = false := by
        simp [foldMods, ha] at h
        exact h
      rw [foldMods, foldMods, asm_g_indep g₁ g₂ st cur mname (by rw [ha]; exact hu), ha]
    · rcases hb : foldMods g₁ p rest (some v) st1 with ⟨rv, st2, u2⟩
      have hu : u1 = false ∧ u2 = false := by
        simp [foldMods, ha, hb] at h
        exact h
      rw [foldMods, foldMods, asm_g_indep g₁ g₂ st cur mname (by rw [ha]; exact hu.1), ha]
      simp only []
      rw [ih (some v) st1 (by rw [hb]; exact hu.2)]

theorem pmv_g_indep (shape : Shape) (pv : ParseValue) (g₁ g₂ : JQ) (bs : Str)
    (st : Store) (h : (parseModifiedVariable shape pv g₁ bs st).2.2 = false) :
    parseModifiedVariable shape pv g₂ bs st = parseModifiedVariable shape pv g₁ bs st := by
  cases hvt : findKeyCI (shape.map (·.1)) (lowerS (bs.takeWhile (fun c => c ≠ '.'))) with
  | none => simp only [parseModifiedVariable, hvt]
  | some vt =>
    cases hp : findKeyCI ((shape.lookup vt).getD [])
        (lowerS ((bs.drop (vt.length + 1)).takeWhile Char.isAlpha)) with
    | none => simp only [parseModifiedVariable, hvt, hp]
    | some prop =>
      simp only [parseModifiedVariable, hvt, hp] at h ⊢
      exact foldMods_g_indep g₁ g₂ _ _ _ _ h

theorem evalSegments_g_indep (shape : Shape) (pv : ParseValue) (g₁ g₂ : JQ) :
    ∀ (segs : List Str) (st : Store),
      (evalSegments shape pv g₁ segs st).2.2 = false →
      evalSegments shape pv g₂ segs st = evalSegments shape pv g₁ segs st := by
  intro segs
  induction segs with
  | nil => intro st _; rfl
  | cons s rest ih =>
    intro st h
    rcases ha : parseModifiedVariable shape pv g₁ s st with ⟨rv, st1, u1⟩
    rcases hb : evalSegments shape pv g₁ rest st1 with ⟨rvs, st2, u2⟩
    have hu : u1 = false ∧ u2 = false := by
      simp [evalSegments, ha, hb] at h
      exact h
    rw [evalSegments, evalSegments, pmv_g_indep shape pv g₁ g₂ s st (by rw [ha]; exact hu.1), ha]
    simp only []
    rw [ih st1 (by rw [hb]; exact hu.2), hb]

theorem parseVariable_g_indep (shape : Shape) (pv : ParseValue) (g₁ g₂ : JQ)
    (mv : Str) (mc : Option (Str × Str)) (st : Store)
    (h : (parseVariable shape pv g₁ mv mc st).2.2 = false) :
    parseVariable shape pv g₂ mv mc st = parseVariable shape pv g₁ mv mc st := by
  cases hvwm : altEvens (reSplitCaptures true comparatorRE mv) with
  | nil =>
    simp only [parseVariable, hvwm] at h ⊢
    rcases ha : evalSegments shape pv g₁ [] st with ⟨rvs, st1, u1⟩
    rw [ha] at h
    rw [evalSegments_g_indep shape pv g₁ g₂ [] st (by rw [ha]; exact h), ha]
  | cons s tl =>
    cases tl with
    | nil =>
      simp only [parseVariable, hvwm] at h ⊢
      rcases ha : parseModifiedVariable shape pv g₁ s st with ⟨rv, st1, u1⟩
      rw [ha] at h
      rw [pmv_g_indep shape pv g₁ g₂ s st (by rw [ha]; exact h), ha]
    | cons s2 tl2 =>
      simp only [parseVariable, hvwm] at h ⊢
      rcases ha : evalSegments shape pv g₁ (s :: s2 :: tl2) st with ⟨rvs, st1, u1⟩
      rw [ha] at h
      rw [evalSegments_g_indep shape pv g₁ g₂ (s :: s2 :: tl2) st (by rw [ha]; exact h), ha]

theorem foldl_flag_mono {α β : Type} (flag : β → Bool) (step : β → α → β)
    (hstep : ∀ acc x, flag acc = true → flag (step acc x) = true) :
    ∀ (l : List α) (acc : β), flag acc = true → flag (l.foldl step acc) = true := by
  intro l
  induction l with
  | nil => intro acc h; exact h
  | cons x rest ih =>
    intro acc h
    rw [List.foldl_cons]
    exact ih (step acc x) (hstep acc x h)

theorem foldl_step_indep {α β : Type} (flag : β → Bool) (step₁ step₂ : β → α → β)
    (hmono : ∀ acc x, flag acc = true → flag (step₁ acc x) = true)
    (hind : ∀ acc x, flag (step₁ acc x) = false → step₂ acc x = step₁ acc x) :
    ∀ (l : List α) (acc : β), flag (l.foldl step₁ acc) = false →
      l.foldl step₂ acc = l.foldl step₁ acc := by
  intro l
  induction l with
  | nil => intro acc _; rfl
  | cons x rest ih =>
    intro acc h
    rw [List.foldl_cons] at h ⊢
    have h1 : flag (step₁ acc x) = false := by
      cases hf : flag (step₁ acc x)
      · rfl
      · rw [foldl_flag_mono flag step₁ hmono rest _ hf] at h
        cases h
    rw [List.foldl_cons, hind acc x h1]
    exact ih (step₁ acc x) h

theorem nodeStep_flag_mono (ev : CompiledVar → Store → RVal × Store × Bool)
    (vtwLen : Nat) (nws : List Nat) :
    ∀ (acc : Str × Option MC × Store × Bool) (child : Nat × CompiledVar),
      acc.2.2.2 = true → (nodeStep ev vtwLen nws acc child).2.2.2 = true := by
  intro acc child h
  rcases acc with ⟨vt, mc, stA, u⟩
  have hu : u = true := h
  rcases ha : ev child.2 stA with ⟨crv, st1, u1⟩
  simp [nodeStep, ha, hu]

theorem nodeStep_g_indep (ev₁ ev₂ : CompiledVar → Store → RVal × Store × Bool)
    (hev : ∀ cv st, (ev₁ cv st).2.2 = false → ev₂ cv st = ev₁ cv st)
    (vtwLen : Nat) (nws : List Nat) :
    ∀ (acc : Str × Option MC × Store × Bool) (child : Nat × CompiledVar),
      (nodeStep ev₁ vtwLen nws acc child).2.2.2 = false →
      nodeStep ev₂ vtwLen nws acc child = nodeStep ev₁ vtwLen nws acc child := by
  intro acc child h
  rcases acc with ⟨vt, mc, stA, u⟩
  rcases ha : ev₁ child.2 stA with ⟨crv, st1, u1⟩
  have hu : u = false ∧ u1 = false := by
    simp [nodeStep, ha] at h
    exact h
  have he : ev₂ child.2 stA = (crv, st1, u1) := by
    rw [hev child.2 stA (by rw [ha]; exact hu.2), ha]
  simp [nodeStep, ha, he]

theorem evalNode_g_indep (shape : Shape) (pv : ParseValue) (g₁ g₂ : JQ) :
    ∀ (fuel : Nat) (cv : CompiledVar) (st : Store),
      (evalNode shape pv g₁ fuel cv st).2.2 = false →
      evalNode shape pv g₂ fuel cv st = evalNode shape pv g₁ fuel cv st := by
  intro fuel
  induction fuel with
  | zero => intro cv st _; rfl
  | succ fuel ih =>
    intro cv st h
    cases cv with
    | node gvt vtwLen mcOpt nws nested =>
      rcases hfa : nested.foldl (nodeStep (evalNode shape pv g₁ fuel) vtwLen nws)
          (gvt, mcOpt, st, false) with ⟨vt, mcCur, st1, u1⟩
      rcases hb : parseVariable shape pv g₁ vt (mcCur.map (fun m => (m.t, m.f))) st1
        with ⟨rv, st2, u2⟩
      have hu : u1 = false ∧ u2 = false := by
        simp [evalNode, hfa, hb] at h
        exact h
      have hfold_eq : nested.foldl (nodeStep (evalNode shape pv g₂ fuel) vtwLen nws)
          (gvt, mcOpt, st, false) = (vt, mcCur, st1, u1) := by
        rw [← hfa]
        apply foldl_step_indep (fun acc => acc.2.2.2)
          (nodeStep (evalNode shape pv g₁ fuel) vtwLen nws)
          (nodeStep (evalNode shape pv g₂ fuel) vtwLen nws)
          (nodeStep_flag_mono _ vtwLen nws)
          (nodeStep_g_indep _ _ ih vtwLen nws)
        rw [hfa]
        exact hu.1
      have hpv := parseVariable_g_indep shape pv g₁ g₂ vt
        (mcCur.map (fun m => (m.t, m.f))) st1 (by rw [hb]; exact hu.2)
      simp only [evalNode, hfold_eq, hfa, hpv, hb]

theorem renderFns_g_indep (shape : Shape) (pv : ParseValue) (g₁ g₂ : JQ) :
    ∀ (fns : List (Nat × CompiledVar)) (resultStr : Str) (st : Store),
      (renderFns shape pv g₁ fns resultStr st).2.2 = false →
      renderFns shape pv g₂ fns resultStr st = renderFns shape pv g₁ fns resultStr st := by
  intro fns
  induction fns with
  | nil => intro rs st _; rfl
  | cons p rest ih =>
    intro rs st h
    rcases p with ⟨idx, nodeV⟩
    rcases ha : evalNode shape pv g₁ evalFuel nodeV st with ⟨rv, st1, u1⟩
    rcases hb : renderFns shape pv g₁ rest
        (rs.take idx ++ rv.error.getD (optToStr st1 rv.result) ++ rs.drop (idx + 1)) st1
      with ⟨out, st2, u2⟩
    have hor : (u1 || u2) = false := by
      have h' := h
      simp only [renderFns, ha, hb] at h'
      exact h'
    rw [Bool.or_eq_false_iff] at hor
    simp only [renderFns,
      evalNode_g_indep shape pv g₁ g₂ evalFuel nodeV st (by rw [ha]; exact hor.1), ha,
      ih (rs.take idx ++ rv.error.getD (optToStr st1 rv.result) ++ rs.drop (idx + 1)) st1
        (by rw [hb]; exact hor.2), hb]

/-- C8.  Rendering is deterministic whenever the `random` array modifier is
not invoked: if one rendering of a template against a record reports that no
random draw was used, then rendering with any other random stream — in
particular a second invocation — produces exactly the same output (and the
same store and flag). -/
theorem c8_deterministic_without_random (shape : Shape) (tmpl : String)
    (pv : ParseValue) (st : Store) (g₁ g₂ : JQ)
    (h : (renderTemplate shape tmpl pv st g₁).2.2 = false) :
    renderTemplate shape tmpl pv st g₂ = renderTemplate shape tmpl pv st g₁ := by
  simp only [renderTemplate] at h ⊢
  rcases ha : runCompiled shape pv g₁
      (compileTemplateHelper
        (match buildRegexExpression shape with
         | .ok r => r
         | .error _ => RE.eps) tmpl.toList) st with ⟨out, st', u⟩
  rw [ha] at h
  have hu : u = false := h
  have h2 : runCompiled shape pv g₂
      (compileTemplateHelper
        (match buildRegexExpression shape with
         | .ok r => r
         | .error _ => RE.eps) tmpl.toList) st = (out, st', u) := by
    rw [← ha]
    apply renderFns_g_indep
    show (runCompiled shape pv g₁
      (compileTemplateHelper
        (match buildRegexExpression shape with
         | .ok r => r
         | .error _ => RE.eps) tmpl.toList) st).2.2 = false
    rw [ha]
    exact hu
  rw [h2]

/-- C8 (witness): the template `\x7bconfig.addonName\x7d` uses no random draw,
and its rendering is unchanged under a different random stream. -/
theorem c8_deterministic_without_random_witness :
    (renderTemplate stdShape "\x7bconfig.addonName\x7d" pvC1 [] (JQ.ofNat 0)).2.2 = false ∧
    renderTemplate stdShape "\x7bconfig.addonName\x7d" pvC1 [] (⟨1, 2⟩ : JQ) =
      renderTemplate stdShape "\x7bconfig.addonName\x7d" pvC1 [] (JQ.ofNat 0) :=
  ⟨by decide, c8_deterministic_without_random stdShape "\x7bconfig.addonName\x7d" pvC1 []
    (JQ.ofNat 0) (⟨1, 2⟩ : JQ) (by decide)⟩

end AioFmt
